import Mathlib

/-!
# MSNetInference: a mixture-of-experts inference dispatcher

Shallow embedding of `src/msnet_inference.cpp` / `src/msnet_inference.h`.

Modelling conventions.

* `float`: the functions are written over an arbitrary arithmetic.  Where a
  property rests on the order of the scores only, or on operations that are
  exact in `float`, it is proved over an exact ordered field (the concrete
  evaluations use `ℚ`).  Where rounding decides a property (the values and
  the arg-max of the fused vector, the order of the additions in
  `average_logits`) the theorem is stated for every arithmetic and the code
  is run on `Binary32`, the `float` arithmetic with its rounding.  NaN is
  outside the model.
* The constructor takes the session constructor of the runtime and the
  paths found in the expert directory as parameters
  (`MSNetInference.construct`).
* `std::vector<T>` is `List T`; `operator[]` out of range is undefined
  behaviour in C++ and is made explicit as `Failure.undefined_behaviour`.
* `std::string` is `String`, compared through its character list
  (`std::less<std::string>` is lexicographic).
* `std::map<std::string, V>` is an association list kept in strictly
  increasing key order; iteration is in that order.
* `std::sort` is a library routine: it is represented by any function
  meeting the contract the C++ standard gives it (`IsStdSort`); the order
  of elements that compare equivalent is therefore not fixed.
* `std::max_element`, `std::getline` and `std::stoi` are deterministic and
  are written out (`max_element`, `getline_segments`, `stoi`).
* The ONNX Runtime calls (`Ort::Value::CreateTensor`, `Ort::Session::Run`)
  are external: they are the fields of `Backend`.
* C++ exceptions and undefined behaviour are values of `Failure`.
-/

namespace MSNet

/-! ## Failures -/

/-- Ways in which a call can fail to return normally. -/
inductive Failure where
  | undefined_behaviour
  | length_error
  | invalid_argument
  | out_of_range
  | runtime_error
  | ort_exception (msg : String)
  deriving DecidableEq, Repr

deriving instance DecidableEq for Except

/-! ## `std::sort` -/

/-- Requirement the standard puts on a comparator: a strict weak ordering
(irreflexive, transitive, and with a transitive incomparability relation). -/
structure StrictWeakOrder (comp : Nat → Nat → Bool) : Prop where
  irrefl : ∀ a, comp a a = false
  trans : ∀ a b c, comp a b = true → comp b c = true → comp a c = true
  equiv_trans : ∀ a b c, comp a b = false → comp b a = false →
    comp b c = false → comp c b = false → comp a c = false ∧ comp c a = false

/-- Contract of `std::sort(first, last, comp)` on a sequence of `int`: for a
comparator that is a strict weak ordering the output is a rearrangement of
the input in which no element compares before an earlier one.  The relative
order of equivalent elements is left open, as in the standard. -/
structure IsStdSort (sort : (Nat → Nat → Bool) → List Nat → List Nat) : Prop where
  perm : ∀ comp l, StrictWeakOrder comp → (sort comp l).Perm l
  sorted : ∀ comp l, StrictWeakOrder comp →
    (sort comp l).Pairwise (fun a b => comp b a = false)

/-- The order `std::sort` aims at: `a` may stand before `b`. -/
def notAfter (comp : Nat → Nat → Bool) (a b : Nat) : Prop := comp b a = false

instance (comp : Nat → Nat → Bool) : DecidableRel (notAfter comp) :=
  fun a b => inferInstanceAs (Decidable (comp b a = false))

/-- An order-preserving implementation: straight insertion, which keeps
equivalent elements in their input order. -/
def stableSort (comp : Nat → Nat → Bool) (l : List Nat) : List Nat :=
  List.insertionSort (notAfter comp) l

/-- An implementation that does not preserve the order of equivalent
elements: the range is traversed from its end. -/
def reversingSort (comp : Nat → Nat → Bool) (l : List Nat) : List Nat :=
  List.insertionSort (notAfter comp) l.reverse

/-! ## Top-K selection -/

/-- The comparator lambda `[&](int a, int b) { return logits[a] > logits[b]; }`.
It is only ever applied to members of `indices`, all within range. -/
def topk_comp {α : Type} [LT α] [@DecidableRel α (· < ·)] [Zero α]
    (logits : List α) (a b : Nat) : Bool :=
  decide (logits.getD a 0 > logits.getD b 0)

/-- The loop `for (int i = 0; i < k; ++i)` of `get_topk_predictions`;
`remaining` is `k - i`. -/
def topk_loop {α : Type} (indices : List Nat) (logits : List α) :
    Nat → Nat → List Nat × List α → Except Failure (List Nat × List α)
  | 0, _, result => .ok result
  | remaining + 1, i, result =>
    match indices[i]? with
    | none => .error .undefined_behaviour
    | some j =>
      match logits[j]? with
      | none => .error .undefined_behaviour
      | some v => topk_loop indices logits remaining (i + 1) (result.1 ++ [j], result.2 ++ [v])

/-- `MSNetInference::get_topk_predictions(logits, k)`. -/
def get_topk_predictions {α : Type} [LT α] [@DecidableRel α (· < ·)] [Zero α]
    (sort : (Nat → Nat → Bool) → List Nat → List Nat) (logits : List α) (k : Int) :
    Except Failure (List Nat × List α) :=
  let indices := List.range logits.length
  let indices := sort (topk_comp logits) indices
  if k < 0 then .error .length_error
  else topk_loop indices logits k.toNat 0 ([], [])

/-! ## Logit fusion -/

/-- The inner loop `for (i < num_classes) avg_logits[i] += logits[i]` of
`average_logits`; `avg_logits` has `num_classes` entries, and reading
`logits[i]` past the end of `logits` is undefined behaviour. -/
def accumulate {α : Type} [Add α] : List α → List α → Except Failure (List α)
  | [], _ => .ok []
  | _ :: _, [] => .error .undefined_behaviour
  | a :: avg_logits, x :: logits =>
    match accumulate avg_logits logits with
    | .error e => .error e
    | .ok rest => .ok ((a + x) :: rest)

/-- The outer loop `for (const auto& logits : all_logits)` of `average_logits`. -/
def accumulate_all {α : Type} [Add α] : List α → List (List α) → Except Failure (List α)
  | avg_logits, [] => .ok avg_logits
  | avg_logits, logits :: rest =>
    match accumulate avg_logits logits with
    | .error e => .error e
    | .ok avg_logits => accumulate_all avg_logits rest

/-- `MSNetInference::average_logits(all_logits)`. -/
def average_logits {α : Type} [Zero α] [Add α] [Div α] [NatCast α]
    (all_logits : List (List α)) : Except Failure (List α) :=
  match all_logits with
  | [] => .ok []
  | first :: _ =>
    let num_classes := first.length
    let avg_logits := List.replicate num_classes (0 : α)
    match accumulate_all avg_logits all_logits with
    | .error e => .error e
    | .ok avg_logits =>
      let num_models : α := (all_logits.length : α)
      .ok (avg_logits.map (fun x => x / num_models))

/-! ## Arg-max -/

/-- The scan of `std::max_element`: `largest` is the position of the current
maximum, `largest_value` its value, `i` the position of the next element. -/
def max_element_loop {α : Type} [LT α] [@DecidableRel α (· < ·)] :
    Nat → α → Nat → List α → Nat
  | largest, _, _, [] => largest
  | largest, largest_value, i, x :: rest =>
    if largest_value < x then max_element_loop i x (i + 1) rest
    else max_element_loop largest largest_value (i + 1) rest

/-- `std::distance(v.begin(), std::max_element(v.begin(), v.end()))`: the
position of the first greatest element, and `0` (`end - begin`) for an empty
range. -/
def max_element {α : Type} [LT α] [@DecidableRel α (· < ·)] : List α → Nat
  | [] => 0
  | x :: rest => max_element_loop 0 x 1 rest

/-! ## `std::map<std::string, V>` -/

/-- `std::less<std::string>`: lexicographic comparison of the characters. -/
def string_less (a b : String) : Prop := a.data < b.data

instance : DecidableRel string_less :=
  fun a b => inferInstanceAs (Decidable (a.data < b.data))

/-- `m[key] = value`: overwrite the entry of `key`, or insert one at its place
in key order. -/
def map_assign {V : Type} : List (String × V) → String → V → List (String × V)
  | [], key, value => [(key, value)]
  | (k, v) :: rest, key, value =>
    if string_less key k then (key, value) :: (k, v) :: rest
    else if string_less k key then (k, v) :: map_assign rest key value
    else (key, value) :: rest

/-- `m[key]` on a map of `std::unique_ptr`: the stored pointer, a null pointer
being inserted first when the key is absent. -/
def map_index {V : Type} (m : List (String × Option V)) (key : String) :
    List (String × Option V) × Option V :=
  match m.find? (fun entry => entry.1 == key) with
  | some entry => (m, entry.2)
  | none => (map_assign m key none, none)

/-! ## Class-label parsing -/

/-- `isspace` in the "C" locale. -/
def isspace (c : Char) : Bool :=
  c.toNat == 32 || (9 ≤ c.toNat && c.toNat ≤ 13)

/-- The digit-reading part of `strtol` in base 10, after the white space and
the sign: the longest run of digits is converted.  No digit:
`std::invalid_argument`; value outside `int`: `std::out_of_range`. -/
def stoi_digits (negative : Bool) (s : List Char) : Except Failure Int :=
  let digits := s.takeWhile Char.isDigit
  if digits.isEmpty then .error .invalid_argument
  else
    let magnitude : Nat := digits.foldl (fun acc d => acc * 10 + (d.toNat - 48)) 0
    let value : Int := if negative then -(magnitude : Int) else (magnitude : Int)
    if value < -2147483648 ∨ 2147483647 < value then .error .out_of_range
    else .ok value

/-- `std::stoi(segment)`: `strtol` in base 10 (leading white space, an
optional sign, then the digits; what follows the digits is ignored). -/
def stoi (segment : List Char) : Except Failure Int :=
  match segment.dropWhile isspace with
  | '-' :: r => stoi_digits true r
  | '+' :: r => stoi_digits false r
  | s => stoi_digits false s

/-- The segments delivered by `while (std::getline(ss, segment, '_'))`:
`segment` collects the characters read so far.  At the end of the input a
call that extracted nothing fails and ends the loop. -/
def getline_segments : List Char → List Char → List (List Char)
  | [], segment => if segment.isEmpty then [] else [segment]
  | c :: rest, segment =>
    if c = '_' then segment :: getline_segments rest []
    else getline_segments rest (segment ++ [c])

/-- The body of the `while` loop of `parse_expert_class_map` over the
segments of one key: `std::invalid_argument` is caught (the segment is
skipped), any other exception leaves the function. -/
def parse_segments : List (List Char) → List Int → Except Failure (List Int)
  | [], class_ids => .ok class_ids
  | segment :: rest, class_ids =>
    match stoi segment with
    | .ok value => parse_segments rest (class_ids ++ [value])
    | .error .invalid_argument => parse_segments rest class_ids
    | .error e => .error e

/-- The class-ID vector computed for one key. -/
def parse_key (key : String) : Except Failure (List Int) :=
  parse_segments (getline_segments key.data []) []

/-- The loop `for (const auto& pair : expert_sessions_)` of
`parse_expert_class_map`. -/
def parse_expert_class_map_loop {Session : Type} :
    List (String × Option Session) → List (String × List Int) →
      Except Failure (List (String × List Int))
  | [], expert_class_map => .ok expert_class_map
  | (key, _) :: rest, expert_class_map =>
    match parse_key key with
    | .error e => .error e
    | .ok class_ids => parse_expert_class_map_loop rest (map_assign expert_class_map key class_ids)

/-! ## The dispatcher -/

/-- The `Config` struct. -/
structure Config where
  router_model_path : String
  expert_model_dir : String
  topk : Int := 2
  use_cuda : Bool := false
  device_id : Int := 0
  input_height : Int := 32
  input_width : Int := 32
  input_channels : Int := 3

/-- The data members of `MSNetInference` the dispatch logic uses; a
`std::unique_ptr<Ort::Session>` is an `Option Session`. -/
structure MSNetInference (Session : Type) where
  config_ : Config
  router_session_ : Option Session
  expert_sessions_ : List (String × Option Session)
  expert_class_map_ : List (String × List Int)
  input_node_dims_ : List Int

/-- `MSNetInference::parse_expert_class_map()`. -/
def parse_expert_class_map {Session : Type} (self : MSNetInference Session) :
    Except Failure (MSNetInference Session) :=
  match parse_expert_class_map_loop self.expert_sessions_ self.expert_class_map_ with
  | .error e => .error e
  | .ok expert_class_map => .ok { self with expert_class_map_ := expert_class_map }

/-- The ONNX Runtime entry points the dispatcher calls; a failure is the
message of the `Ort::Exception` thrown. -/
structure Backend (Session Tensor α : Type) where
  /-- The call `Ort::Value::CreateTensor<float>(info, data, count, shape, shape_len)`. -/
  CreateTensor : List α → Nat → List Int → Except String Tensor
  /-- The call `session->Run(...)` with the first output tensor copied out. -/
  Run : Session → Tensor → Except String (List α)

/-- What one `predict` call did: the object afterwards, the sessions `Run`
was invoked on (in order), the argument handed to `average_logits` and its
result (when reached), and the value returned or the failure raised. -/
structure PredictOutcome (Session α : Type) where
  self : MSNetInference Session
  calls : List Session
  logits_to_average : Option (List (List α))
  final_logits : Option (List α)
  result : Except Failure Nat

/-- Step 3 of `predict`: the loop over `expert_class_map_`; the value is
`selected_expert_key`, which stays empty when no entry matches. -/
def select_expert : List (String × List Int) → Int → Int → String
  | [], _, _ => ""
  | (key, classes) :: rest, pred1, pred2 =>
    let covers_pred1 := classes.contains pred1
    let covers_pred2 := classes.contains pred2
    if covers_pred1 && covers_pred2 then key
    else select_expert rest pred1 pred2

/-- Step 5 of `predict`: average the collected logits and take the arg-max. -/
def predict_step5 {Session α : Type} [LT α] [@DecidableRel α (· < ·)] [Zero α] [Add α] [Div α]
    [NatCast α] (self : MSNetInference Session) (calls : List Session)
    (logits_to_average : List (List α)) : PredictOutcome Session α :=
  match average_logits logits_to_average with
  | .error e => ⟨self, calls, some logits_to_average, none, .error e⟩
  | .ok final_logits =>
    ⟨self, calls, some logits_to_average, some final_logits, .ok (max_element final_logits)⟩

/-- `MSNetInference::predict(input_image_data)`. -/
def predict {Session Tensor α : Type} [LT α] [@DecidableRel α (· < ·)] [Zero α] [Add α]
    [Div α] [NatCast α] (sort : (Nat → Nat → Bool) → List Nat → List Nat)
    (B : Backend Session Tensor α) (self : MSNetInference Session)
    (input_image_data : List α) : PredictOutcome Session α :=
  match B.CreateTensor input_image_data input_image_data.length self.input_node_dims_ with
  | .error msg => ⟨self, [], none, none, .error (.ort_exception msg)⟩
  | .ok input_tensor =>
  match self.router_session_ with
  | none => ⟨self, [], none, none, .error .undefined_behaviour⟩
  | some router =>
  match B.Run router input_tensor with
  | .error msg => ⟨self, [router], none, none, .error (.ort_exception msg)⟩
  | .ok router_logits =>
  match get_topk_predictions sort router_logits self.config_.topk with
  | .error e => ⟨self, [router], none, none, .error e⟩
  | .ok top_router_preds =>
  match top_router_preds.1[0]?, top_router_preds.1[1]? with
  | some p1, some p2 =>
    let pred1 : Int := Int.ofNat p1
    let pred2 : Int := Int.ofNat p2
    let selected_expert_key := select_expert self.expert_class_map_ pred1 pred2
    if selected_expert_key ≠ "" then
      let (expert_sessions, session) := map_index self.expert_sessions_ selected_expert_key
      let self := { self with expert_sessions_ := expert_sessions }
      match session with
      | none => ⟨self, [router], none, none, .error .undefined_behaviour⟩
      | some expert =>
        match B.Run expert input_tensor with
        | .error msg => ⟨self, [router, expert], none, none, .error (.ort_exception msg)⟩
        | .ok expert_logits =>
          predict_step5 self [router, expert] [router_logits, expert_logits]
    else predict_step5 self [router] [router_logits]
  | _, _ => ⟨self, [router], none, none, .error .undefined_behaviour⟩

/-! ## A scripted backend for concrete runs -/

/-- A test double for the ONNX Runtime.  Tensor creation applies the size
check of the runtime (no negative shape entry, and a buffer holding at least
as many elements as the shape asks for) and keeps the shape only; `Run`
replays the logits scripted for the session. -/
def scriptedBackend (script : List (String × List ℚ)) : Backend String (List Int) ℚ where
  CreateTensor := fun _ count shape =>
    if shape.any (fun d => d < 0) then .error "tried creating tensor with negative value in shape"
    else if count < shape.prod.toNat then .error "not enough space"
    else .ok shape
  Run := fun session _ =>
    match script.lookup session with
    | some logits => .ok logits
    | none => .error "no such model"

/-! ## Specification vocabulary -/

/-- `p` is the lowest position at which `v` takes its greatest value. -/
def IsFirstArgmax {α : Type} [LE α] [LT α] [Zero α] (v : List α) (p : Nat) : Prop :=
  p < v.length ∧ (∀ j, j < v.length → v.getD j 0 ≤ v.getD p 0) ∧
    (∀ j, j < p → v.getD j 0 < v.getD p 0)

/-- The keys of a `std::map` are in strictly increasing order. -/
def KeysSorted {V : Type} (m : List (String × V)) : Prop :=
  m.Pairwise (fun a b => string_less a.1 b.1)

/-! ## Concrete dispatchers for the end-to-end scenarios -/

/-- The logits scripted for the scenarios: the router and the expert `1_2`. -/
def demoScript : List (String × List ℚ) :=
  [("router", [1/10, 9/10, 2/10, 5/100]), ("1_2", [2/10, 7/10, 3/10, 1/10])]

/-- A dispatcher with the experts `0_3` and `1_2`, `topk = 2` and the default
input shape `1 x 3 x 32 x 32`. -/
def demoDispatcher : MSNetInference String :=
  { config_ := { router_model_path := "router.onnx", expert_model_dir := "experts" }
    router_session_ := some "router"
    expert_sessions_ := [("0_3", some "0_3"), ("1_2", some "1_2")]
    expert_class_map_ := [("0_3", [0, 3]), ("1_2", [1, 2])]
    input_node_dims_ := [1, 3, 32, 32] }

/-- A dispatcher whose only expert is `0_3`. -/
def routerOnlyDispatcher : MSNetInference String :=
  { config_ := { router_model_path := "router.onnx", expert_model_dir := "experts" }
    router_session_ := some "router"
    expert_sessions_ := [("0_3", some "0_3")]
    expert_class_map_ := [("0_3", [0, 3])]
    input_node_dims_ := [1, 3, 32, 32] }

/-! ## Specification vocabulary for the class-label parser -/

/-- Splitting at every underscore; all segments are kept, empty ones too. -/
def split_underscore : List Char → List (List Char)
  | [] => [[]]
  | c :: rest =>
    if c = '_' then [] :: split_underscore rest
    else (c :: (split_underscore rest).headD []) :: (split_underscore rest).tail

/-- The values of type `int`. -/
def fits_int (v : Int) : Prop := -2147483648 ≤ v ∧ v ≤ 2147483647

instance : DecidablePred fits_int :=
  fun v => inferInstanceAs (Decidable (-2147483648 ≤ v ∧ v ≤ 2147483647))

/-- A segment that is an integer as a whole: an optional sign followed by
one or more decimal digits and nothing else, with a value of type `int`. -/
def valid_integer (seg : List Char) : Option Int :=
  let (negative, digits) :=
    match seg with
    | '-' :: r => (true, r)
    | '+' :: r => (false, r)
    | _ => (false, seg)
  if digits.isEmpty || !digits.all Char.isDigit then none
  else
    let magnitude : Nat := digits.foldl (fun acc d => acc * 10 + (d.toNat - 48)) 0
    let value : Int := if negative then -(magnitude : Int) else (magnitude : Int)
    if fits_int value then some value else none

/-- The class-label parser in the words of the specification: split the key
at the underscores and keep, in order, the values of the segments that are
valid integers. -/
def spec_class_ids (key : String) : List Int :=
  (split_underscore key.data).filterMap valid_integer

/-- The decimal number formed by the digits a string starts with, continuing
from `acc`. -/
def leading_digits : List Char → Nat → Nat
  | [], acc => acc
  | c :: rest, acc =>
    if c.isDigit then leading_digits rest (acc * 10 + (c.toNat - 48)) else acc

/-- The unsigned number a string starts with, when it starts with a digit. -/
def leading_natural : List Char → Option Nat
  | [] => none
  | c :: rest => if c.isDigit then some (leading_digits rest (c.toNat - 48)) else none

/-- The integer a segment starts with: white space is passed over, one sign
may come next, and at least one digit must follow; whatever comes after the
digits is not looked at. -/
def leading_integer : List Char → Option Int
  | [] => none
  | c :: rest =>
    if isspace c then leading_integer rest
    else if c = '-' then (leading_natural rest).map (fun (n : Nat) => -(n : Int))
    else if c = '+' then (leading_natural rest).map (fun (n : Nat) => (n : Int))
    else (leading_natural (c :: rest)).map (fun (n : Nat) => (n : Int))

/-- The outcome of `stoi` in terms of the integer the segment starts with. -/
def stoi_of (o : Option Int) : Except Failure Int :=
  match o with
  | none => .error .invalid_argument
  | some v => if fits_int v then .ok v else .error .out_of_range


/-- A freshly constructed object, before `parse_expert_class_map` runs, whose
expert directory held `1_2.onnx` and `99999999999.onnx`. -/
def oversizedDispatcher : MSNetInference String :=
  { config_ := { router_model_path := "router.onnx", expert_model_dir := "experts" }
    router_session_ := some "router"
    expert_sessions_ := [("1_2", some "1_2"), ("99999999999", some "99999999999")]
    expert_class_map_ := []
    input_node_dims_ := [] }

/-- Scripted logits in which the expert `1_2` answers with two logits only
(one per class it separates) while the router answers with four. -/
def shortExpertScript : List (String × List ℚ) :=
  [("router", [1/10, 9/10, 2/10, 5/100]), ("1_2", [7/10, 3/10])]

/-- The dispatcher of the scenarios configured with `topk = 1`. -/
def top1Dispatcher : MSNetInference String :=
  { config_ := { router_model_path := "router.onnx", expert_model_dir := "experts", topk := 1 }
    router_session_ := some "router"
    expert_sessions_ := [("0_3", some "0_3"), ("1_2", some "1_2")]
    expert_class_map_ := [("0_3", [0, 3]), ("1_2", [1, 2])]
    input_node_dims_ := [1, 3, 32, 32] }

/-- The dispatcher of the scenarios configured with `topk = 3`. -/
def top3Dispatcher : MSNetInference String :=
  { config_ := { router_model_path := "router.onnx", expert_model_dir := "experts", topk := 3 }
    router_session_ := some "router"
    expert_sessions_ := [("0_3", some "0_3"), ("1_2", some "1_2")]
    expert_class_map_ := [("0_3", [0, 3]), ("1_2", [1, 2])]
    input_node_dims_ := [1, 3, 32, 32] }

/-! ## Construction -/

/-- `path::filename()` in the generic format: what follows the last `/`. -/
def path_filename (p : List Char) : List Char :=
  (p.reverse.takeWhile (fun c => c != '/')).reverse

/-- `path::extension()`: the part of the file name from its last period on;
empty when the file name is `.` or `..`, has no period, or has its last
period as first character. -/
def path_extension (p : List Char) : List Char :=
  let name := path_filename p
  let after_period := (name.reverse.takeWhile (fun c => c != '.')).reverse
  if name = ['.'] ∨ name = ['.', '.'] then []
  else if after_period.length = name.length then []
  else if after_period.length + 1 = name.length then []
  else name.drop (name.length - (after_period.length + 1))

/-- `path::stem()`: the file name without its extension. -/
def path_stem (p : List Char) : List Char :=
  (path_filename p).take ((path_filename p).length - (path_extension p).length)

/-- The loop `for (const auto& entry : fs::directory_iterator(...))` of the
constructor: `entries` are the paths the iterator yields, `load` is the
constructor of `Ort::Session` (its failure is an `Ort::Exception`). -/
def load_experts {Session : Type} (load : String → Except String Session) :
    List String → List (String × Option Session) →
      Except Failure (List (String × Option Session))
  | [], expert_sessions => .ok expert_sessions
  | entry :: rest, expert_sessions =>
    if path_extension entry.data = ".onnx".data then
      let expert_key := String.mk (path_stem entry.data)
      let expert_path := entry
      match load expert_path with
      | .error msg => .error (.ort_exception msg)
      | .ok session =>
        load_experts load rest (map_assign expert_sessions expert_key (some session))
    else load_experts load rest expert_sessions

/-- The constructor `MSNetInference::MSNetInference(config)`, given the
session constructor `load` and the paths `entries` found in
`config.expert_model_dir`.  The registration of the CUDA provider belongs to
the runtime and is not part of the model. -/
def MSNetInference.construct {Session : Type} (load : String → Except String Session)
    (entries : List String) (config : Config) : Except Failure (MSNetInference Session) :=
  match load config.router_model_path with
  | .error msg => .error (.ort_exception msg)
  | .ok router =>
    match load_experts load entries [] with
    | .error e => .error e
    | .ok expert_sessions =>
      if expert_sessions.isEmpty then .error .runtime_error
      else
        match parse_expert_class_map
          { config_ := config, router_session_ := some router,
            expert_sessions_ := expert_sessions, expert_class_map_ := [],
            input_node_dims_ := [] } with
        | .error e => .error e
        | .ok self =>
          .ok { self with
            input_node_dims_ :=
              [1, config.input_channels, config.input_height, config.input_width] }

/-- A session constructor that loads every model; the session is named after
its path. -/
def scriptedLoad (path : String) : Except String String := .ok path

/-- The configuration of the scenarios. -/
def demoConfig : Config :=
  { router_model_path := "router.onnx", expert_model_dir := "experts" }

/-- The object built from a directory holding `1_2.onnx`, `notes.txt` and
`0_3.onnx`. -/
def builtDispatcher : MSNetInference String :=
  { config_ := demoConfig
    router_session_ := some "router.onnx"
    expert_sessions_ := [("0_3", some "experts/0_3.onnx"), ("1_2", some "experts/1_2.onnx")]
    expert_class_map_ := [("0_3", [0, 3]), ("1_2", [1, 2])]
    input_node_dims_ := [1, 3, 32, 32] }

/-- The logits scripted for the sessions of `builtDispatcher`. -/
def builtScript : List (String × List ℚ) :=
  [("router.onnx", [1/10, 9/10, 2/10, 5/100]), ("experts/1_2.onnx", [2/10, 7/10, 3/10, 1/10])]

/-! ## `float` arithmetic with rounding -/

/-- A finite `float` value (IEEE 754 binary32) `m * 2^e`, kept with `m` odd,
or `m = 0` and `e = 0`.  Overflow, subnormal numbers, infinities and NaN are
not represented. -/
structure Binary32 where
  m : Int
  e : Int
  deriving DecidableEq, Repr

/-- The number of binary digits of `n`, counted with `fuel` halvings. -/
def bit_length_aux : Nat → Nat → Nat
  | 0, _ => 0
  | fuel + 1, n => if n = 0 then 0 else bit_length_aux fuel (n / 2) + 1

/-- The number of binary digits of `n`. -/
def bit_length (n : Nat) : Nat := bit_length_aux n n

/-- Removal of the trailing zero bits of `m`, with `fuel` halvings. -/
def normalize_aux : Nat → Int → Int → Binary32
  | 0, m, e => ⟨m, e⟩
  | fuel + 1, m, e =>
    if m % 2 = 0 then normalize_aux fuel (m / 2) (e + 1)
    else ⟨m, e⟩

/-- The representation of `m * 2^e` with `m` odd (zero is `0 * 2^0`). -/
def normalize (m e : Int) : Binary32 :=
  if m = 0 then ⟨0, 0⟩ else normalize_aux m.natAbs m e

/-- Rounding of the exact value `m * 2^e` to 24 significant bits, to nearest,
ties to even: the rounding every binary32 operation applies to its exact
result. -/
def round_to_binary32 (m e : Int) : Binary32 :=
  let n := m.natAbs
  let len := bit_length n
  if len ≤ 24 then normalize m e
  else
    let s := len - 24
    let q := n / 2 ^ s
    let r := n % 2 ^ s
    let half := 2 ^ (s - 1)
    let q := if half < r ∨ (r = half ∧ q % 2 = 1) then q + 1 else q
    normalize (if m < 0 then -(q : Int) else (q : Int)) (e + s)

/-- Addition of `float`: the exact sum, rounded. -/
def Binary32.add (a b : Binary32) : Binary32 :=
  let e := min a.e b.e
  round_to_binary32 (a.m * 2 ^ (a.e - e).toNat + b.m * 2 ^ (b.e - e).toNat) e

/-- Division of `float`: the quotient is computed with more than 26 bits and
a sticky bit for a non-zero remainder, then rounded.  Division by zero (an
infinity or NaN in IEEE 754) is outside the model and returns zero. -/
def Binary32.div (a b : Binary32) : Binary32 :=
  if b.m = 0 then ⟨0, 0⟩
  else
    let n := a.m.natAbs * 2 ^ 50
    let d := b.m.natAbs
    let q := 2 * (n / d) + (if n % d = 0 then 0 else 1)
    round_to_binary32 (if (a.m < 0) = (b.m < 0) then (q : Int) else -(q : Int))
      (a.e - b.e - 51)

/-- The `float` nearest to an integer, as in `static_cast<float>(n)`. -/
def Binary32.ofInt (z : Int) : Binary32 := round_to_binary32 z 0

instance : Zero Binary32 := ⟨⟨0, 0⟩⟩

instance : Add Binary32 := ⟨Binary32.add⟩

instance : Div Binary32 := ⟨Binary32.div⟩

instance : NatCast Binary32 := ⟨fun n => Binary32.ofInt n⟩

/-- The rational number a `float` stands for. -/
def Binary32.toRat (a : Binary32) : ℚ := (a.m : ℚ) * (2 : ℚ) ^ a.e

/-- The order of `float` values: `a < b`, compared at the smaller exponent. -/
def Binary32.lt (a b : Binary32) : Prop :=
  a.m * 2 ^ (a.e - min a.e b.e).toNat < b.m * 2 ^ (b.e - min a.e b.e).toNat

instance : LT Binary32 := ⟨Binary32.lt⟩

instance : @DecidableRel Binary32 (· < ·) :=
  fun a b => inferInstanceAs
    (Decidable (a.m * 2 ^ (a.e - min a.e b.e).toNat < b.m * 2 ^ (b.e - min a.e b.e).toNat))

/-- The scripted backend of the concrete runs, with `float` logits. -/
def scriptedBackend32 (script : List (String × List Binary32)) :
    Backend String (List Int) Binary32 where
  CreateTensor := fun _ count shape =>
    if shape.any (fun d => d < 0) then .error "tried creating tensor with negative value in shape"
    else if count < shape.prod.toNat then .error "not enough space"
    else .ok shape
  Run := fun session _ =>
    match script.lookup session with
    | some logits => .ok logits
    | none => .error "no such model"

/-- A dispatcher whose only expert is `0_1`. -/
def pairDispatcher : MSNetInference String :=
  { config_ := { router_model_path := "router.onnx", expert_model_dir := "experts" }
    router_session_ := some "router"
    expert_sessions_ := [("0_1", some "0_1")]
    expert_class_map_ := [("0_1", [0, 1])]
    input_node_dims_ := [1, 3, 32, 32] }

/-- Router logits `[5, 5, 0]` and expert logits `[1, 1 + 2^-23, 0]`, all of
them `float` values. -/
def closeScript : List (String × List Binary32) :=
  [("router", [Binary32.ofInt 5, Binary32.ofInt 5, Binary32.ofInt 0]),
   ("0_1", [Binary32.ofInt 1, ⟨8388609, -23⟩, Binary32.ofInt 0])]

/-- The scenario of the specification in `float`: each logit is the `float`
nearest to its decimal value. -/
def demoScript32 : List (String × List Binary32) :=
  [("router", [Binary32.ofInt 1 / Binary32.ofInt 10, Binary32.ofInt 9 / Binary32.ofInt 10,
      Binary32.ofInt 2 / Binary32.ofInt 10, Binary32.ofInt 5 / Binary32.ofInt 100]),
   ("1_2", [Binary32.ofInt 2 / Binary32.ofInt 10, Binary32.ofInt 7 / Binary32.ofInt 10,
      Binary32.ofInt 3 / Binary32.ofInt 10, Binary32.ofInt 1 / Binary32.ofInt 10])]

/-! ## Lemmas: sorting -/

theorem StrictWeakOrder.asymm {comp : Nat → Nat → Bool} (h : StrictWeakOrder comp)
    (a b : Nat) (hab : comp a b = true) : comp b a = false := by
  cases hba : comp b a with
  | false => rfl
  | true =>
    have := h.trans a b a hab hba
    rw [h.irrefl a] at this
    exact absurd this (by decide)

theorem StrictWeakOrder.notAfter_total {comp : Nat → Nat → Bool} (h : StrictWeakOrder comp)
    (a b : Nat) : notAfter comp a b ∨ notAfter comp b a := by
  unfold notAfter
  cases hba : comp b a with
  | false => exact Or.inl rfl
  | true => exact Or.inr (h.asymm b a hba)

theorem StrictWeakOrder.notAfter_trans {comp : Nat → Nat → Bool} (h : StrictWeakOrder comp)
    (a b c : Nat) (hab : notAfter comp a b) (hbc : notAfter comp b c) : notAfter comp a c := by
  unfold notAfter at *
  cases hca : comp c a with
  | false => rfl
  | true =>
    cases hab2 : comp a b with
    | true =>
      have := h.trans c a b hca hab2
      rw [hbc] at this
      exact absurd this (by decide)
    | false =>
      cases hbc2 : comp b c with
      | true =>
        have := h.trans b c a hbc2 hca
        rw [hab] at this
        exact absurd this (by decide)
      | false =>
        have := (h.equiv_trans a b c hab2 hab hbc2 hbc).2
        rw [hca] at this
        exact absurd this (by decide)

theorem insertionSort_notAfter_sorted (comp : Nat → Nat → Bool) (h : StrictWeakOrder comp)
    (l : List Nat) : (List.insertionSort (notAfter comp) l).Pairwise (notAfter comp) := by
  haveI : IsTotal Nat (notAfter comp) := ⟨h.notAfter_total⟩
  haveI : IsTrans Nat (notAfter comp) := ⟨h.notAfter_trans⟩
  exact List.sorted_insertionSort (notAfter comp) l

theorem stableSort_isStdSort : IsStdSort stableSort where
  perm := fun comp l _ => List.perm_insertionSort (notAfter comp) l
  sorted := fun comp l h => insertionSort_notAfter_sorted comp h l

theorem reversingSort_isStdSort : IsStdSort reversingSort where
  perm := fun comp l _ =>
    (List.perm_insertionSort (notAfter comp) l.reverse).trans (List.reverse_perm l)
  sorted := fun comp l h => insertionSort_notAfter_sorted comp h l.reverse

theorem topk_comp_swo {α : Type} [LinearOrder α] [Zero α] (logits : List α) :
    StrictWeakOrder (topk_comp logits) where
  irrefl := by intro a; simp [topk_comp]
  trans := by
    intro a b c hab hbc
    simp only [topk_comp, decide_eq_true_eq, gt_iff_lt] at *
    exact lt_trans hbc hab
  equiv_trans := by
    intro a b c h1 h2 h3 h4
    simp only [topk_comp, decide_eq_false_iff_not, gt_iff_lt, not_lt] at *
    exact ⟨le_trans h1 h3, le_trans h4 h2⟩

/-! ## Lemmas: top-K -/

theorem topk_loop_ok {α : Type} [Zero α] (indices : List Nat) (logits : List α)
    (hvalid : ∀ j ∈ indices, j < logits.length) :
    ∀ (n i : Nat) (result : List Nat × List α), i + n ≤ indices.length →
      topk_loop indices logits n i result =
        .ok (result.1 ++ (indices.drop i).take n,
             result.2 ++ ((indices.drop i).take n).map (fun j => logits.getD j 0)) := by
  intro n
  induction n with
  | zero => intro i result _; simp [topk_loop]
  | succ n ih =>
    intro i result hi
    have hlt : i < indices.length := by omega
    have hj : indices[i] < logits.length := hvalid _ (List.getElem_mem _)
    have hd : indices.drop i = indices[i] :: indices.drop (i + 1) :=
      List.drop_eq_getElem_cons hlt
    rw [topk_loop]
    simp only [List.getElem?_eq_getElem hlt, List.getElem?_eq_getElem hj]
    rw [ih (i + 1) _ (by omega), hd, List.take_succ_cons, List.map_cons,
      List.getD_eq_getElem _ _ hj]
    simp

/-- The sorted index vector of `get_topk_predictions`. -/
theorem sorted_indices_facts {α : Type} [LinearOrder α] [Zero α]
    (sort : (Nat → Nat → Bool) → List Nat → List Nat) (hS : IsStdSort sort) (logits : List α) :
    (sort (topk_comp logits) (List.range logits.length)).Perm (List.range logits.length) ∧
    (sort (topk_comp logits) (List.range logits.length)).length = logits.length ∧
    (sort (topk_comp logits) (List.range logits.length)).Nodup ∧
    (∀ j ∈ sort (topk_comp logits) (List.range logits.length), j < logits.length) ∧
    (sort (topk_comp logits) (List.range logits.length)).Pairwise
      (fun a b => logits.getD b 0 ≤ logits.getD a 0) := by
  have hp := hS.perm (topk_comp logits) (List.range logits.length) (topk_comp_swo logits)
  have hs := hS.sorted (topk_comp logits) (List.range logits.length) (topk_comp_swo logits)
  refine ⟨hp, ?_, ?_, ?_, ?_⟩
  · simpa using hp.length_eq
  · exact hp.nodup_iff.mpr (List.nodup_range _)
  · intro j hj
    exact List.mem_range.mp (hp.mem_iff.mp hj)
  · refine hs.imp ?_
    intro a b hab
    simpa [topk_comp] using hab

/-- Within the precondition `0 ≤ k ≤ logits.size()` the function returns the
first `k` entries of the sorted index vector with their scores. -/
theorem get_topk_predictions_eq {α : Type} [LinearOrder α] [Zero α]
    (sort : (Nat → Nat → Bool) → List Nat → List Nat) (hS : IsStdSort sort) (logits : List α)
    (k : Int) (hk0 : 0 ≤ k) (hkn : k ≤ logits.length) :
    get_topk_predictions sort logits k =
      .ok ((sort (topk_comp logits) (List.range logits.length)).take k.toNat,
           ((sort (topk_comp logits) (List.range logits.length)).take k.toNat).map
             (fun j => logits.getD j 0)) := by
  obtain ⟨_, hlen, _, hvalid, _⟩ := sorted_indices_facts sort hS logits
  unfold get_topk_predictions
  simp only [not_lt.mpr hk0, if_false]
  rw [topk_loop_ok _ _ hvalid k.toNat 0 _ (by omega)]
  simp

/-! ## Lemmas: fusion and arg-max -/

theorem accumulate_eq {α : Type} [Add α] (avg logits : List α) (h : avg.length ≤ logits.length) :
    accumulate avg logits = .ok (List.zipWith (· + ·) avg logits) := by
  induction avg generalizing logits with
  | nil => simp [accumulate]
  | cons a avg ih =>
    cases logits with
    | nil => simp at h
    | cons x logits =>
      simp only [List.length_cons, Nat.add_le_add_iff_right] at h
      simp [accumulate, ih logits h]

theorem accumulate_all_eq {α : Type} [AddMonoid α] (n : Nat) (all_logits : List (List α))
    (hall : ∀ l ∈ all_logits, l.length = n) :
    ∀ avg : List α, avg.length = n →
      ∃ v, accumulate_all avg all_logits = .ok v ∧ v.length = n ∧
        ∀ i, i < n → v.getD i 0 = avg.getD i 0 + (all_logits.map (fun l => l.getD i 0)).sum := by
  induction all_logits with
  | nil =>
    intro avg havg
    exact ⟨avg, rfl, havg, by intro i _; simp⟩
  | cons l rest ih =>
    intro avg havg
    have hl : l.length = n := hall l (List.mem_cons_self _ _)
    obtain ⟨v, hv, hvlen, hvi⟩ := ih (fun l' hl' => hall l' (List.mem_cons_of_mem _ hl'))
      (List.zipWith (· + ·) avg l) (by simp [havg, hl])
    refine ⟨v, ?_, hvlen, ?_⟩
    · simp [accumulate_all, accumulate_eq avg l (by omega), hv]
    · intro i hi
      rw [hvi i hi, List.map_cons, List.sum_cons, ← add_assoc]
      congr 1
      have h1 : i < avg.length := by omega
      have h2 : i < l.length := by omega
      simp [List.getD_eq_getElem?_getD, List.getElem?_zipWith, List.getElem?_eq_getElem h1, List.getElem?_eq_getElem h2]

theorem max_element_loop_spec {α : Type} [LinearOrder α] [Zero α] (v : List α) :
    ∀ (rest : List α) (largest i : Nat) (lv : α), v.drop i = rest → i ≤ v.length →
      largest < i → v.getD largest 0 = lv → (∀ j, j < i → v.getD j 0 ≤ lv) →
      (∀ j, j < largest → v.getD j 0 < lv) →
      IsFirstArgmax v (max_element_loop largest lv i rest) := by
  intro rest
  induction rest with
  | nil =>
    intro largest i lv hdrop hi hl hlv hmax hfirst
    have hlen : v.length - i = 0 := by
      simpa using congrArg List.length hdrop
    have : i = v.length := by omega
    subst this
    simp only [max_element_loop]
    subst hlv
    exact ⟨hl, hmax, hfirst⟩
  | cons x rest ih =>
    intro largest i lv hdrop hi hl hlv hmax hfirst
    have hlt : i < v.length := by
      by_contra hcon
      have : v.drop i = [] := List.drop_eq_nil_of_le (by omega)
      rw [this] at hdrop
      exact absurd hdrop (by simp)
    rw [List.drop_eq_getElem_cons hlt] at hdrop
    have hx : v[i] = x := by injection hdrop
    have hrest : v.drop (i + 1) = rest := by injection hdrop
    have hxi : v.getD i 0 = x := by rw [List.getD_eq_getElem _ _ hlt, hx]
    simp only [max_element_loop]
    split
    · rename_i hlvx
      apply ih i (i + 1) x hrest (by omega) (by omega) hxi
      · intro j hj
        rcases Nat.lt_succ_iff_lt_or_eq.mp hj with h | h
        · exact le_of_lt (lt_of_le_of_lt (hmax j h) hlvx)
        · rw [h, hxi]
      · intro j hj
        exact lt_of_le_of_lt (hmax j hj) hlvx
    · rename_i hlvx
      apply ih largest (i + 1) lv hrest (by omega) (by omega) hlv
      · intro j hj
        rcases Nat.lt_succ_iff_lt_or_eq.mp hj with h | h
        · exact hmax j h
        · rw [h, hxi]; exact not_lt.mp hlvx
      · exact hfirst

theorem max_element_spec {α : Type} [LinearOrder α] [Zero α] (v : List α) (hv : v ≠ []) :
    IsFirstArgmax v (max_element v) := by
  cases v with
  | nil => exact absurd rfl hv
  | cons x rest =>
    simp only [max_element]
    apply max_element_loop_spec (x :: rest) rest 0 1 x (by simp) (by simp) (by omega) (by simp)
    · intro j hj
      have : j = 0 := by omega
      subst this
      simp
    · intro j hj
      omega

theorem zipWith_replicate_zero {α : Type} [AddMonoid α] (r : List α) :
    List.zipWith (· + ·) (List.replicate r.length (0 : α)) r = r := by
  induction r with
  | nil => rfl
  | cons x r ih => simp [List.replicate_succ, ih]

theorem average_logits_general {α : Type} [DivisionRing α] (all_logits : List (List α)) (n : Nat)
    (hne : all_logits ≠ []) (hall : ∀ l ∈ all_logits, l.length = n) :
    ∃ v, average_logits all_logits = .ok v ∧ v.length = n ∧
      ∀ i, i < n → v.getD i 0 =
        (all_logits.map (fun l => l.getD i 0)).sum / (all_logits.length : α) := by
  cases hq : all_logits with
  | nil => exact absurd hq hne
  | cons first rest =>
    rw [← hq]
    have hfirst : first.length = n := hall first (by rw [hq]; exact List.mem_cons_self _ _)
    obtain ⟨w, hw, hwlen, hwi⟩ := accumulate_all_eq n all_logits hall
      (List.replicate first.length (0 : α)) (by simp [hfirst])
    refine ⟨w.map (fun x => x / (all_logits.length : α)), ?_, by simpa using hwlen, ?_⟩
    · have : average_logits all_logits =
          match accumulate_all (List.replicate first.length (0 : α)) all_logits with
          | .error e => .error e
          | .ok avg => .ok (avg.map (fun x => x / (all_logits.length : α))) := by
        rw [hq]; rfl
      rw [this, hw]
    · intro i hi
      have h1 : i < w.length := by omega
      have h2 : i < (w.map (fun x => x / (all_logits.length : α))).length := by simpa using h1
      have h3 : i < (List.replicate first.length (0 : α)).length := by simp [hfirst, hi]
      have hwi2 := hwi i hi
      rw [List.getD_eq_getElem _ _ h3, List.getElem_replicate, zero_add,
        List.getD_eq_getElem _ _ h1] at hwi2
      rw [List.getD_eq_getElem _ _ h2, List.getElem_map, hwi2]

theorem average_logits_single {α : Type} [DivisionRing α] (v : List α) :
    average_logits [v] = .ok v := by
  simp [average_logits, accumulate_all, accumulate_eq, zipWith_replicate_zero]

theorem average_logits_pair {α : Type} [DivisionRing α] (r x : List α)
    (hlen : x.length = r.length) :
    average_logits [r, x] = .ok (List.zipWith (fun a b => (a + b) / 2) r x) := by
  have h1 : accumulate (List.replicate r.length (0 : α)) r = .ok r := by
    rw [accumulate_eq _ _ (by simp), zipWith_replicate_zero]
  have h2 : accumulate r x = .ok (List.zipWith (· + ·) r x) := accumulate_eq _ _ (by omega)
  simp only [average_logits, accumulate_all, h1, h2]
  congr 1
  rw [List.map_zipWith]
  norm_num

/-! ## Lemmas: maps, parsing and expert selection -/

theorem contains_iff_mem_int {a : Int} {l : List Int} : l.contains a = true ↔ a ∈ l := by
  simp


theorem string_less_trans (a b c : String) (h1 : string_less a b) (h2 : string_less b c) :
    string_less a c := by
  unfold string_less at *
  exact lt_trans h1 h2

theorem string_eq_of_not_less (a b : String) (h1 : ¬ string_less a b) (h2 : ¬ string_less b a) :
    a = b := by
  unfold string_less at *
  have : a.data = b.data := le_antisymm (not_lt.mp h2) (not_lt.mp h1)
  exact String.ext this

theorem map_assign_mem {V : Type} (m : List (String × V)) (key : String) (value : V)
    (e : String × V) (he : e ∈ map_assign m key value) : e = (key, value) ∨ e ∈ m := by
  induction m with
  | nil => simpa [map_assign] using he
  | cons head rest ih =>
    obtain ⟨k, v⟩ := head
    simp only [map_assign] at he
    split at he
    · rcases List.mem_cons.mp he with h | h
      · exact Or.inl h
      · exact Or.inr h
    · split at he
      · rcases List.mem_cons.mp he with h | h
        · exact Or.inr (h ▸ List.mem_cons_self _ _)
        · rcases ih h with h2 | h2
          · exact Or.inl h2
          · exact Or.inr (List.mem_cons_of_mem _ h2)
      · rcases List.mem_cons.mp he with h | h
        · exact Or.inl h
        · exact Or.inr (List.mem_cons_of_mem _ h)

theorem map_assign_sorted {V : Type} (m : List (String × V)) (key : String) (value : V)
    (hm : KeysSorted m) : KeysSorted (map_assign m key value) := by
  induction m with
  | nil => simp [map_assign, KeysSorted]
  | cons head rest ih =>
    obtain ⟨k, v⟩ := head
    unfold KeysSorted at hm ih ⊢
    rw [List.pairwise_cons] at hm
    obtain ⟨hhead, hrest⟩ := hm
    simp only [map_assign]
    split
    · rename_i hlt
      refine List.pairwise_cons.mpr ⟨?_, List.pairwise_cons.mpr ⟨hhead, hrest⟩⟩
      intro e he
      rcases List.mem_cons.mp he with h | h
      · rw [h]; exact hlt
      · exact string_less_trans _ _ _ hlt (hhead e h)
    · rename_i hnlt
      split
      · rename_i hgt
        refine List.pairwise_cons.mpr ⟨?_, ih hrest⟩
        intro e he
        rcases map_assign_mem rest key value e he with h | h
        · rw [h]; exact hgt
        · exact hhead e h
      · rename_i hngt
        have hk : key = k := string_eq_of_not_less _ _ hnlt hngt
        refine List.pairwise_cons.mpr ⟨?_, hrest⟩
        intro e he
        rw [hk]
        exact hhead e he

/-- What `parse_expert_class_map` establishes: keys in increasing order, and
every stored class-ID vector is the one computed from its key. -/
theorem parse_expert_class_map_loop_inv {Session : Type} :
    ∀ (sessions : List (String × Option Session)) (m0 m : List (String × List Int)),
      parse_expert_class_map_loop sessions m0 = .ok m → KeysSorted m0 →
      (∀ key classes, (key, classes) ∈ m0 → parse_key key = .ok classes) →
      KeysSorted m ∧ ∀ key classes, (key, classes) ∈ m → parse_key key = .ok classes := by
  intro sessions
  induction sessions with
  | nil =>
    intro m0 m h hs hp
    simp only [parse_expert_class_map_loop] at h
    injection h with h
    subst h
    exact ⟨hs, hp⟩
  | cons head rest ih =>
    intro m0 m h hs hp
    obtain ⟨key, session⟩ := head
    simp only [parse_expert_class_map_loop] at h
    split at h
    · exact absurd h (by simp)
    · rename_i class_ids hkey
      refine ih _ m h (map_assign_sorted m0 key class_ids hs) ?_
      intro key2 classes2 hmem
      rcases map_assign_mem m0 key class_ids _ hmem with h2 | h2
      · injection h2 with h3 h4
        rw [h3, h4]; exact hkey
      · exact hp key2 classes2 h2

theorem select_expert_first {m : List (String × List Int)} (hm : KeysSorted m)
    (pred1 pred2 : Int) (key : String) (classes : List Int) (hmem : (key, classes) ∈ m)
    (h1 : pred1 ∈ classes) (h2 : pred2 ∈ classes) :
    ∃ classes0, (select_expert m pred1 pred2, classes0) ∈ m ∧ pred1 ∈ classes0 ∧
      pred2 ∈ classes0 ∧
      (select_expert m pred1 pred2 = key ∨ string_less (select_expert m pred1 pred2) key) := by
  induction m with
  | nil => exact absurd hmem (List.not_mem_nil _)
  | cons head rest ih =>
    obtain ⟨k, c⟩ := head
    unfold KeysSorted at hm ih
    rw [List.pairwise_cons] at hm
    obtain ⟨hhead, hrest⟩ := hm
    simp only [select_expert]
    split
    · rename_i hcov
      simp only [Bool.and_eq_true, contains_iff_mem_int] at hcov
      refine ⟨c, List.mem_cons_self _ _, hcov.1, hcov.2, ?_⟩
      rcases List.mem_cons.mp hmem with h | h
      · injection h with h3 _
        exact Or.inl h3.symm
      · exact Or.inr (hhead _ h)
    · rename_i hcov
      simp only [Bool.and_eq_true, contains_iff_mem_int] at hcov
      rcases List.mem_cons.mp hmem with h | h
      · injection h with h3 h4
        subst h4
        exact absurd ⟨h1, h2⟩ hcov
      · obtain ⟨c0, hc0, hp1, hp2, hle⟩ := ih hrest h
        exact ⟨c0, List.mem_cons_of_mem _ hc0, hp1, hp2, hle⟩

theorem select_expert_none {m : List (String × List Int)} (pred1 pred2 : Int)
    (hno : ∀ key classes, (key, classes) ∈ m → ¬ (pred1 ∈ classes ∧ pred2 ∈ classes)) :
    select_expert m pred1 pred2 = "" := by
  induction m with
  | nil => rfl
  | cons head rest ih =>
    obtain ⟨k, c⟩ := head
    simp only [select_expert]
    split
    · rename_i hcov
      simp only [Bool.and_eq_true, contains_iff_mem_int] at hcov
      exact absurd hcov (hno k c (List.mem_cons_self _ _))
    · exact ih (fun key classes h => hno key classes (List.mem_cons_of_mem _ h))

/-! ## Lemmas: `predict` -/

theorem topk_loop_nil_logits {α : Type} (indices : List Nat) (n i : Nat)
    (result result1 : List Nat × List α)
    (h : topk_loop indices ([] : List α) n i result = .ok result1) : result1 = result := by
  cases n with
  | zero =>
    simp only [topk_loop] at h
    injection h with h
    exact h.symm
  | succ n =>
    simp only [topk_loop] at h
    split at h
    · exact absurd h (by simp)
    · simp at h

theorem get_topk_predictions_nonempty {α : Type} [LinearOrder α] [Zero α]
    (sort : (Nat → Nat → Bool) → List Nat → List Nat) (logits : List α) (k : Int)
    (idx : List Nat) (sc : List α) (p : Nat)
    (h : get_topk_predictions sort logits k = .ok (idx, sc)) (hp : idx[0]? = some p) :
    logits ≠ [] := by
  intro hnil
  subst hnil
  unfold get_topk_predictions at h
  simp only at h
  split at h
  · exact absurd h (by simp)
  · have := topk_loop_nil_logits _ _ _ _ _ h
    injection this with h1 _
    subst h1
    simp at hp

theorem predict_step5_final {Session α : Type} [LinearOrderedField α]
    (self : MSNetInference Session) (calls : List Session) (lta : List (List α)) (f : List α)
    (h : (predict_step5 self calls lta).final_logits = some f) :
    (predict_step5 self calls lta).result = .ok (max_element f) := by
  unfold predict_step5 at *
  split at h
  · simp at h
  · simp only [Option.some.injEq] at h
    subst h
    rfl

theorem predict_final {Session Tensor α : Type} [LinearOrderedField α]
    (sort : (Nat → Nat → Bool) → List Nat → List Nat) (B : Backend Session Tensor α)
    (self : MSNetInference Session) (input : List α) (f : List α)
    (h : (predict sort B self input).final_logits = some f) :
    (predict sort B self input).result = .ok (max_element f) := by
  revert h
  unfold predict
  dsimp only
  repeat' split
  all_goals intro h
  all_goals first
    | exact predict_step5_final _ _ _ _ h
    | exact absurd h (by simp)

theorem predict_no_match_eq {Session Tensor α : Type} [LinearOrderedField α]
    (sort : (Nat → Nat → Bool) → List Nat → List Nat) (B : Backend Session Tensor α)
    (self : MSNetInference Session) (input : List α) (t : Tensor) (router : Session)
    (r : List α) (idx : List Nat) (sc : List α) (p1 p2 : Nat)
    (ht : B.CreateTensor input input.length self.input_node_dims_ = .ok t)
    (hrs : self.router_session_ = some router)
    (hr : B.Run router t = .ok r)
    (htopk : get_topk_predictions sort r self.config_.topk = .ok (idx, sc))
    (hp1 : idx[0]? = some p1) (hp2 : idx[1]? = some p2)
    (hsel : select_expert self.expert_class_map_ (Int.ofNat p1) (Int.ofNat p2) = "") :
    predict sort B self input = predict_step5 self [router] [r] := by
  unfold predict
  simp only [ht, hrs, hr, htopk, hp1, hp2, hsel, ne_eq, not_true_eq_false, if_false]

theorem predict_expert_eq {Session Tensor α : Type} [LinearOrderedField α]
    (sort : (Nat → Nat → Bool) → List Nat → List Nat) (B : Backend Session Tensor α)
    (self : MSNetInference Session) (input : List α) (t : Tensor) (router expert : Session)
    (r x : List α) (idx : List Nat) (sc : List α) (p1 p2 : Nat) (e : String)
    (ht : B.CreateTensor input input.length self.input_node_dims_ = .ok t)
    (hrs : self.router_session_ = some router)
    (hr : B.Run router t = .ok r)
    (htopk : get_topk_predictions sort r self.config_.topk = .ok (idx, sc))
    (hp1 : idx[0]? = some p1) (hp2 : idx[1]? = some p2)
    (hsel : select_expert self.expert_class_map_ (Int.ofNat p1) (Int.ofNat p2) = e)
    (he : e ≠ "")
    (hidx : map_index self.expert_sessions_ e = (self.expert_sessions_, some expert))
    (hx : B.Run expert t = .ok x) :
    predict sort B self input = predict_step5 self [router, expert] [r, x] := by
  obtain ⟨c, rs, es, cm, dims⟩ := self
  simp only at ht hrs htopk hsel hidx
  subst hrs
  unfold predict
  simp only [ht, hr, htopk, hp1, hp2, hsel, ne_eq, he, not_false_eq_true, if_true, hidx, hx]

theorem topk_demo : get_topk_predictions stableSort ([1/10, 9/10, 2/10, 5/100] : List ℚ) 2
    = .ok ([1, 2], [9/10, 2/10]) := by
  simp [get_topk_predictions, stableSort, topk_loop, List.range, List.range.loop,
    List.insertionSort, List.orderedInsert]
  norm_num [notAfter, topk_comp]

theorem scripted_CreateTensor_ok (script : List (String × List ℚ)) (data : List ℚ) :
    (scriptedBackend script).CreateTensor data (List.replicate 3072 (0 : ℚ)).length [1, 3, 32, 32]
      = .ok [1, 3, 32, 32] := by
  simp [scriptedBackend, -List.reduceReplicate]

theorem predict_demo :
    predict stableSort (scriptedBackend demoScript) demoDispatcher (List.replicate 3072 0) =
      ⟨demoDispatcher, ["router", "1_2"],
        some [[1/10, 9/10, 2/10, 5/100], [2/10, 7/10, 3/10, 1/10]],
        some [15/100, 8/10, 25/100, 75/1000], .ok 1⟩ := by
  rw [predict_expert_eq stableSort (scriptedBackend demoScript) demoDispatcher
    (List.replicate 3072 0) [1, 3, 32, 32] "router" "1_2" [1/10, 9/10, 2/10, 5/100]
    [2/10, 7/10, 3/10, 1/10] [1, 2] [9/10, 2/10] 1 2 "1_2"
    (scripted_CreateTensor_ok _ _) rfl (by simp [scriptedBackend, demoScript, List.lookup])
    topk_demo rfl rfl (by decide) (by decide) (by decide)
    (by simp [scriptedBackend, demoScript, List.lookup])]
  rw [predict_step5, average_logits_pair [1/10, 9/10, 2/10, 5/100] [2/10, 7/10, 3/10, 1/10]
    (by simp)]
  norm_num [max_element, max_element_loop]

theorem predict_calls_of_tensor {Session Tensor α : Type} [LinearOrderedField α]
    (sort : (Nat → Nat → Bool) → List Nat → List Nat) (B : Backend Session Tensor α)
    (self : MSNetInference Session) (input : List α) (t : Tensor) (router : Session)
    (ht : B.CreateTensor input input.length self.input_node_dims_ = .ok t)
    (hrs : self.router_session_ = some router) :
    (predict sort B self input).calls.head? = some router := by
  unfold predict
  simp only [ht, hrs]
  repeat' split
  all_goals first
    | rfl
    | (unfold predict_step5; split <;> rfl)

theorem scripted_CreateTensor_long (script : List (String × List ℚ)) (data : List ℚ) :
    (scriptedBackend script).CreateTensor data (List.replicate 3073 (0 : ℚ)).length [1, 3, 32, 32]
      = .ok [1, 3, 32, 32] := by
  simp [scriptedBackend, -List.reduceReplicate]

theorem scripted_CreateTensor_short (script : List (String × List ℚ)) (data : List ℚ) :
    (scriptedBackend script).CreateTensor data (List.replicate 3071 (0 : ℚ)).length [1, 3, 32, 32]
      = .error "not enough space" := by
  simp [scriptedBackend, -List.reduceReplicate]

/-! ## Lemmas: `std::stoi` and `std::getline` -/

theorem foldl_takeWhile_digits (s : List Char) (acc : Nat) :
    (s.takeWhile Char.isDigit).foldl (fun acc d => acc * 10 + (d.toNat - 48)) acc
      = leading_digits s acc := by
  induction s generalizing acc with
  | nil => rfl
  | cons c rest ih =>
    by_cases hc : c.isDigit = true
    · simp [List.takeWhile, leading_digits, hc, ih]
    · simp [List.takeWhile, leading_digits, hc]

theorem stoi_digits_eq (negative : Bool) (s : List Char) :
    stoi_digits negative s =
      stoi_of ((leading_natural s).map
        (fun (n : Nat) => if negative then -(n : Int) else (n : Int))) := by
  cases s with
  | nil => simp [stoi_digits, leading_natural, stoi_of]
  | cons c rest =>
    by_cases hc : c.isDigit = true
    · have hfold := foldl_takeWhile_digits rest (0 * 10 + (c.toNat - 48))
      simp only [Nat.zero_mul, Nat.zero_add] at hfold
      cases negative
      · simp only [stoi_digits, List.takeWhile, hc, List.isEmpty_cons, List.foldl_cons, hfold,
          leading_natural, stoi_of, fits_int, Option.map_some', if_true, if_false,
          Bool.false_eq_true, Nat.zero_mul, Nat.zero_add]
        split_ifs <;> first | rfl | (exfalso; omega)
      · simp only [stoi_digits, List.takeWhile, hc, List.isEmpty_cons, List.foldl_cons, hfold,
          leading_natural, stoi_of, fits_int, Option.map_some', if_true, if_false,
          Bool.false_eq_true, Nat.zero_mul, Nat.zero_add]
        split_ifs <;> first | rfl | (exfalso; omega)
    · simp [stoi_digits, List.takeWhile, hc, leading_natural, stoi_of]

theorem stoi_eq (segment : List Char) : stoi segment = stoi_of (leading_integer segment) := by
  induction segment with
  | nil => simp [stoi, stoi_digits, leading_integer, stoi_of]
  | cons c rest ih =>
    by_cases hs : isspace c = true
    · have h1 : stoi (c :: rest) = stoi rest := by
        simp [stoi, List.dropWhile, hs]
      rw [h1, ih]
      simp [leading_integer, hs]
    · have hd : (c :: rest).dropWhile isspace = c :: rest := by
        simp [List.dropWhile, hs]
      by_cases hm : c = '-'
      · subst hm
        simp only [stoi, hd, leading_integer, hs, stoi_digits_eq]
        simp
      · by_cases hp : c = '+'
        · subst hp
          simp only [stoi, hd, leading_integer, hs, stoi_digits_eq]
          simp
        · have h2 : stoi (c :: rest) = stoi_digits false (c :: rest) := by
            unfold stoi
            rw [hd]
            split
            · rename_i heq; injection heq with h3 _; exact absurd h3 hm
            · rename_i heq; injection heq with h3 _; exact absurd h3 hp
            · rfl
          rw [h2, stoi_digits_eq]
          simp [leading_integer, hs, hm, hp]

theorem parse_segments_eq (segs : List (List Char)) :
    ∀ class_ids : List Int, (∀ v ∈ segs.filterMap leading_integer, fits_int v) →
      parse_segments segs class_ids = .ok (class_ids ++ segs.filterMap leading_integer) := by
  induction segs with
  | nil => intro class_ids _; simp [parse_segments]
  | cons seg rest ih =>
    intro class_ids hfit
    cases hl : leading_integer seg with
    | none =>
      have hrest : ∀ v ∈ rest.filterMap leading_integer, fits_int v := by
        intro v hv
        exact hfit v (by simp [List.filterMap_cons, hl, hv])
      simp [parse_segments, stoi_eq, hl, stoi_of, ih class_ids hrest, List.filterMap_cons]
    | some v =>
      have hv : fits_int v := hfit v (by simp [List.filterMap_cons, hl])
      have hrest : ∀ v ∈ rest.filterMap leading_integer, fits_int v := by
        intro w hw
        exact hfit w (by simp [List.filterMap_cons, hl, hw])
      simp [parse_segments, stoi_eq, hl, stoi_of, hv, ih (class_ids ++ [v]) hrest,
        List.filterMap_cons]

theorem split_underscore_cons (s : List Char) :
    split_underscore s = (split_underscore s).headD [] :: (split_underscore s).tail := by
  cases s with
  | nil => rfl
  | cons c rest =>
    by_cases hc : c = '_'
    · simp [split_underscore, hc]
    · simp [split_underscore, hc]

theorem getline_segments_filterMap (s : List Char) :
    ∀ segment : List Char,
      (getline_segments s segment).filterMap leading_integer =
        ((segment ++ (split_underscore s).headD []) :: (split_underscore s).tail).filterMap
          leading_integer := by
  induction s with
  | nil =>
    intro segment
    cases segment with
    | nil => simp [getline_segments, split_underscore, leading_integer]
    | cons c r => simp [getline_segments, split_underscore]
  | cons c rest ih =>
    intro segment
    by_cases hc : c = '_'
    · subst hc
      have h0 := ih []
      rw [List.nil_append, ← split_underscore_cons] at h0
      simp only [getline_segments, split_underscore, if_true, List.filterMap_cons,
        List.append_nil, h0, List.headD_cons, List.tail_cons]
    · have h0 := ih (segment ++ [c])
      simp only [getline_segments, split_underscore, hc, if_false, h0, List.headD_cons,
        List.tail_cons, List.append_assoc, List.singleton_append]

theorem parse_key_eq (key : String)
    (hfit : ∀ v ∈ (split_underscore key.data).filterMap leading_integer, fits_int v) :
    parse_key key = .ok ((split_underscore key.data).filterMap leading_integer) := by
  have hg := getline_segments_filterMap key.data []
  have hsplit : (getline_segments key.data []).filterMap leading_integer =
      (split_underscore key.data).filterMap leading_integer := by
    rw [hg, List.nil_append, ← split_underscore_cons]
  unfold parse_key
  rw [parse_segments_eq _ [] (by rw [hsplit]; exact hfit), hsplit]
  simp

/-! ## Lemmas: `topk < 2` -/

theorem topk_loop_length {α : Type} (indices : List Nat) (logits : List α) :
    ∀ (n i : Nat) (result result1 : List Nat × List α),
      topk_loop indices logits n i result = .ok result1 →
      result1.1.length = result.1.length + n := by
  intro n
  induction n with
  | zero =>
    intro i result result1 h
    simp only [topk_loop] at h
    injection h with h
    subst h
    rfl
  | succ n ih =>
    intro i result result1 h
    simp only [topk_loop] at h
    split at h
    · exact absurd h (by simp)
    · split at h
      · exact absurd h (by simp)
      · have := ih _ _ _ h
        simp only [List.length_append, List.length_singleton] at this
        omega

theorem get_topk_predictions_length {α : Type} [LT α] [@DecidableRel α (· < ·)] [Zero α]
    (sort : (Nat → Nat → Bool) → List Nat → List Nat) (logits : List α) (k : Int)
    (idx : List Nat) (sc : List α)
    (h : get_topk_predictions sort logits k = .ok (idx, sc)) : (idx.length : Int) = k := by
  unfold get_topk_predictions at h
  simp only at h
  split at h
  · exact absurd h (by simp)
  · have := topk_loop_length _ _ _ _ _ _ h
    simp only [List.length_nil, Nat.zero_add] at this
    omega

/-! ## Lemmas: the selected expert -/

theorem select_expert_mem (m : List (String × List Int)) (pred1 pred2 : Int)
    (h : select_expert m pred1 pred2 ≠ "") :
    ∃ classes, (select_expert m pred1 pred2, classes) ∈ m ∧ pred1 ∈ classes ∧
      pred2 ∈ classes := by
  induction m with
  | nil => exact absurd rfl h
  | cons head rest ih =>
    obtain ⟨k, c⟩ := head
    simp only [select_expert] at h ⊢
    split
    · rename_i hcov
      simp only [Bool.and_eq_true, contains_iff_mem_int] at hcov
      exact ⟨c, List.mem_cons_self _ _, hcov.1, hcov.2⟩
    · rename_i hcov
      rw [if_neg hcov] at h
      obtain ⟨c0, hc0, h1, h2⟩ := ih h
      exact ⟨c0, List.mem_cons_of_mem _ hc0, h1, h2⟩

theorem topk3_demo : get_topk_predictions stableSort ([1/10, 9/10, 2/10, 5/100] : List ℚ) 3
    = .ok ([1, 2, 0], [9/10, 2/10, 1/10]) := by
  simp [get_topk_predictions, stableSort, topk_loop, List.range, List.range.loop,
    List.insertionSort, List.orderedInsert]
  norm_num [notAfter, topk_comp]

theorem predict_step5_calls {Session α : Type} [LinearOrderedField α]
    (self : MSNetInference Session) (calls : List Session) (lta : List (List α)) :
    (predict_step5 self calls lta).calls = calls ∧
    (predict_step5 self calls lta).self = self ∧
    (predict_step5 self calls lta).logits_to_average = some lta := by
  unfold predict_step5
  split <;> exact ⟨rfl, rfl, rfl⟩

/-- The steps of `predict` after top-K has returned at least two indices. -/
theorem predict_after_topk {Session Tensor α : Type} [LinearOrderedField α]
    (sort : (Nat → Nat → Bool) → List Nat → List Nat) (B : Backend Session Tensor α)
    (self : MSNetInference Session) (input : List α) (t : Tensor) (router : Session)
    (r : List α) (idx : List Nat) (sc : List α) (p1 p2 : Nat)
    (ht : B.CreateTensor input input.length self.input_node_dims_ = .ok t)
    (hrs : self.router_session_ = some router)
    (hr : B.Run router t = .ok r)
    (htopk : get_topk_predictions sort r self.config_.topk = .ok (idx, sc))
    (hp1 : idx[0]? = some p1) (hp2 : idx[1]? = some p2) :
    predict sort B self input =
      if select_expert self.expert_class_map_ (Int.ofNat p1) (Int.ofNat p2) ≠ "" then
        match (map_index self.expert_sessions_
            (select_expert self.expert_class_map_ (Int.ofNat p1) (Int.ofNat p2))).2 with
        | none =>
          ⟨{ self with expert_sessions_ := (map_index self.expert_sessions_
              (select_expert self.expert_class_map_ (Int.ofNat p1) (Int.ofNat p2))).1 },
            [router], none, none, .error .undefined_behaviour⟩
        | some expert =>
          match B.Run expert t with
          | .error msg =>
            ⟨{ self with expert_sessions_ := (map_index self.expert_sessions_
                (select_expert self.expert_class_map_ (Int.ofNat p1) (Int.ofNat p2))).1 },
              [router, expert], none, none, .error (.ort_exception msg)⟩
          | .ok x =>
            predict_step5 { self with expert_sessions_ := (map_index self.expert_sessions_
                (select_expert self.expert_class_map_ (Int.ofNat p1) (Int.ofNat p2))).1 }
              [router, expert] [r, x]
      else predict_step5 self [router] [r] := by
  unfold predict
  simp only [ht, hrs, hr, htopk, hp1, hp2]

theorem predict_top3_calls :
    (predict stableSort (scriptedBackend demoScript) top3Dispatcher
      (List.replicate 3072 0)).calls = ["router", "1_2"] := by
  rw [predict_expert_eq stableSort (scriptedBackend demoScript) top3Dispatcher
    (List.replicate 3072 0) [1, 3, 32, 32] "router" "1_2" [1/10, 9/10, 2/10, 5/100]
    [2/10, 7/10, 3/10, 1/10] [1, 2, 0] [9/10, 2/10, 1/10] 1 2 "1_2"
    (scripted_CreateTensor_ok _ _) rfl (by simp [scriptedBackend, demoScript, List.lookup])
    topk3_demo rfl rfl (by decide) (by decide) (by decide)
    (by simp [scriptedBackend, demoScript, List.lookup])]
  exact (predict_step5_calls _ _ _).1

/-! ## Lemmas: the empty-key sentinel -/

theorem parse_key_empty : parse_key "" = .ok [] := by decide

theorem empty_key_classes {Session : Type} (sessions : List (String × Option Session))
    (m : List (String × List Int)) (hm : parse_expert_class_map_loop sessions [] = .ok m)
    (classes : List Int) (hmem : ("", classes) ∈ m) : classes = [] := by
  have h := (parse_expert_class_map_loop_inv sessions [] m hm (by simp [KeysSorted])
    (by intro k c h; exact absurd h (List.not_mem_nil _))).2 "" classes hmem
  rw [parse_key_empty] at h
  injection h with h
  exact h.symm

theorem predict_router_only_iff {Session Tensor α : Type} [LinearOrderedField α]
    (sort : (Nat → Nat → Bool) → List Nat → List Nat) (B : Backend Session Tensor α)
    (self : MSNetInference Session) (input : List α) (t : Tensor) (router : Session)
    (r : List α) (idx : List Nat) (sc : List α) (p1 p2 : Nat)
    (ht : B.CreateTensor input input.length self.input_node_dims_ = .ok t)
    (hrs : self.router_session_ = some router)
    (hr : B.Run router t = .ok r)
    (htopk : get_topk_predictions sort r self.config_.topk = .ok (idx, sc))
    (hp1 : idx[0]? = some p1) (hp2 : idx[1]? = some p2) :
    (predict sort B self input).logits_to_average = some [r] ↔
      select_expert self.expert_class_map_ (Int.ofNat p1) (Int.ofNat p2) = "" := by
  rw [predict_after_topk sort B self input t router r idx sc p1 p2 ht hrs hr htopk hp1 hp2]
  by_cases hsel : select_expert self.expert_class_map_ (Int.ofNat p1) (Int.ofNat p2) = ""
  · rw [if_neg (not_not.mpr hsel), (predict_step5_calls _ _ _).2.2]
    exact ⟨fun _ => hsel, fun _ => rfl⟩
  · rw [if_pos hsel]
    refine ⟨fun h => ?_, fun h => absurd h hsel⟩
    exfalso
    cases hmi : (map_index self.expert_sessions_
        (select_expert self.expert_class_map_ (Int.ofNat p1) (Int.ofNat p2))).2 with
    | none =>
      simp only [hmi] at h
      exact absurd h (by simp)
    | some expert =>
      simp only [hmi] at h
      cases hx : B.Run expert t with
      | error msg =>
        simp only [hx] at h
        exact absurd h (by simp)
      | ok x =>
        simp only [hx, (predict_step5_calls _ _ _).2.2] at h
        simp at h

/-! ## Lemmas: construction -/

theorem map_assign_keys {V : Type} (m : List (String × V)) (key : String) (value : V)
    (k : String) :
    k ∈ (map_assign m key value).map Prod.fst ↔ k = key ∨ k ∈ m.map Prod.fst := by
  induction m with
  | nil => simp [map_assign]
  | cons head rest ih =>
    obtain ⟨k0, v0⟩ := head
    simp only [map_assign]
    split
    · simp
    · rename_i hnlt
      split
      · simp only [List.map_cons, List.mem_cons, ih]
        tauto
      · rename_i hngt
        have hk : key = k0 := string_eq_of_not_less _ _ hnlt hngt
        subst hk
        simp

theorem keysSorted_nodup {V : Type} (m : List (String × V)) (hm : KeysSorted m) :
    (m.map Prod.fst).Nodup := by
  unfold KeysSorted at hm
  rw [List.Nodup, List.pairwise_map]
  refine hm.imp ?_
  intro a b hab heq
  rw [heq] at hab
  unfold string_less at hab
  exact lt_irrefl _ hab

theorem load_experts_sorted {Session : Type} (load : String → Except String Session) :
    ∀ (entries : List String) (ss0 ss : List (String × Option Session)),
      load_experts load entries ss0 = .ok ss → KeysSorted ss0 → KeysSorted ss := by
  intro entries
  induction entries with
  | nil =>
    intro ss0 ss h hs
    simp only [load_experts] at h
    injection h with h
    subst h
    exact hs
  | cons entry rest ih =>
    intro ss0 ss h hs
    simp only [load_experts] at h
    split at h
    · split at h
      · exact absurd h (by simp)
      · exact ih _ ss h (map_assign_sorted ss0 _ _ hs)
    · exact ih _ ss h hs

theorem parse_expert_class_map_loop_keys {Session : Type} :
    ∀ (sessions : List (String × Option Session)) (m0 m : List (String × List Int)),
      parse_expert_class_map_loop sessions m0 = .ok m →
      ∀ k, k ∈ m.map Prod.fst ↔ k ∈ m0.map Prod.fst ∨ k ∈ sessions.map Prod.fst := by
  intro sessions
  induction sessions with
  | nil =>
    intro m0 m h k
    simp only [parse_expert_class_map_loop] at h
    injection h with h
    subst h
    simp
  | cons head rest ih =>
    intro m0 m h k
    obtain ⟨key, session⟩ := head
    simp only [parse_expert_class_map_loop] at h
    split at h
    · exact absurd h (by simp)
    · rw [ih _ m h k, map_assign_keys]
      simp only [List.map_cons, List.mem_cons]
      tauto

/-- What a completed construction establishes. -/
theorem construct_inv {Session : Type} (load : String → Except String Session)
    (entries : List String) (config : Config) (self : MSNetInference Session)
    (h : MSNetInference.construct load entries config = .ok self) :
    self.config_ = config ∧ (∃ router, self.router_session_ = some router) ∧
    self.expert_sessions_ ≠ [] ∧ KeysSorted self.expert_sessions_ ∧
    parse_expert_class_map_loop self.expert_sessions_ [] = .ok self.expert_class_map_ ∧
    self.input_node_dims_ =
      [1, config.input_channels, config.input_height, config.input_width] := by
  unfold MSNetInference.construct at h
  split at h
  · exact absurd h (by simp)
  · rename_i router hrouter
    split at h
    · exact absurd h (by simp)
    · rename_i ss hss
      split at h
      · exact absurd h (by simp)
      · rename_i hne
        unfold parse_expert_class_map at h
        simp only at h
        split at h
        · exact absurd h (by simp)
        · rename_i self1 hself1
          split at hself1
          · exact absurd hself1 (by simp)
          · rename_i cm hcm
            injection hself1 with hself1
            injection h with h
            subst hself1
            subst h
            refine ⟨rfl, ⟨router, rfl⟩, ?_, ?_, hcm, rfl⟩
            · intro hnil
              simp only at hnil
              rw [hnil] at hne
              exact hne rfl
            · exact load_experts_sorted load entries [] ss hss (by simp [KeysSorted])

theorem construct_demo :
    MSNetInference.construct scriptedLoad
      ["experts/1_2.onnx", "experts/notes.txt", "experts/0_3.onnx"] demoConfig
      = .ok builtDispatcher := by
  rfl

theorem sorted_keys_eq (l1 l2 : List String)
    (h1 : l1.Pairwise string_less) (h2 : l2.Pairwise string_less)
    (hmem : ∀ k, k ∈ l1 ↔ k ∈ l2) : l1 = l2 := by
  haveI : IsAntisymm String string_less :=
    ⟨fun a b hab hba => by
      unfold string_less at hab hba
      exact absurd (lt_trans hab hba) (lt_irrefl _)⟩
  have hn : ∀ l : List String, l.Pairwise string_less → l.Nodup := by
    intro l hl
    refine hl.imp ?_
    intro a b hab heq
    rw [heq] at hab
    unfold string_less at hab
    exact lt_irrefl _ hab
  exact List.eq_of_perm_of_sorted ((List.perm_ext_iff_of_nodup (hn l1 h1) (hn l2 h2)).mpr hmem)
    h1 h2

theorem map_index_of_mem {V : Type} (m : List (String × Option V)) (key : String)
    (h : key ∈ m.map Prod.fst) : (map_index m key).1 = m := by
  unfold map_index
  cases hf : m.find? (fun entry => entry.1 == key) with
  | some entry => rfl
  | none =>
    exfalso
    obtain ⟨entry, hentry, hk⟩ := List.mem_map.mp h
    have := List.find?_eq_none.mp hf entry hentry
    simp [hk] at this

theorem predict_built_calls :
    (predict stableSort (scriptedBackend builtScript) builtDispatcher
      (List.replicate 3072 0)).calls = ["router.onnx", "experts/1_2.onnx"] := by
  rw [predict_expert_eq stableSort (scriptedBackend builtScript) builtDispatcher
    (List.replicate 3072 0) [1, 3, 32, 32] "router.onnx" "experts/1_2.onnx"
    [1/10, 9/10, 2/10, 5/100] [2/10, 7/10, 3/10, 1/10] [1, 2] [9/10, 2/10] 1 2 "1_2"
    (scripted_CreateTensor_ok _ _) rfl (by simp [scriptedBackend, builtScript, List.lookup])
    topk_demo rfl rfl (by decide) (by decide) (by decide)
    (by simp [scriptedBackend, builtScript, List.lookup])]
  exact (predict_step5_calls _ _ _).1

/-! ## Lemmas: order of the fused vectors -/

theorem zipWith_zero_add {α : Type} [Zero α] [Add α] (hzero : ∀ x : α, 0 + x = x)
    (v : List α) : List.zipWith (· + ·) (List.replicate v.length (0 : α)) v = v := by
  induction v with
  | nil => rfl
  | cons x v ih => simp [List.replicate_succ, ih, hzero]

theorem zipWith_add_right_comm {α : Type} [Add α] (hcomm : ∀ x y : α, x + y = y + x)
    (hassoc : ∀ x y z : α, (x + y) + z = x + (y + z)) :
    ∀ z x y : List α,
      List.zipWith (· + ·) (List.zipWith (· + ·) z x) y =
        List.zipWith (· + ·) (List.zipWith (· + ·) z y) x := by
  intro z
  induction z with
  | nil => intro x y; simp
  | cons c z ih =>
    intro x y
    cases x with
    | nil => cases y <;> simp
    | cons a x =>
      cases y with
      | nil => simp
      | cons b y =>
        simp only [List.zipWith_cons_cons, ih x y]
        rw [hassoc c a b, hcomm a b, ← hassoc c b a]

theorem accumulate_all_foldl {α : Type} [Add α] (n : Nat) (all_logits : List (List α))
    (hall : ∀ v ∈ all_logits, v.length = n) :
    ∀ avg : List α, avg.length = n →
      accumulate_all avg all_logits = .ok (all_logits.foldl (List.zipWith (· + ·)) avg) := by
  induction all_logits with
  | nil => intro avg _; rfl
  | cons v rest ih =>
    intro avg havg
    have hv : v.length = n := hall v (List.mem_cons_self _ _)
    simp only [accumulate_all, accumulate_eq avg v (by omega), List.foldl_cons]
    exact ih (fun w hw => hall w (List.mem_cons_of_mem _ hw)) _ (by simp [havg, hv])

theorem average_logits_foldl {α : Type} [Zero α] [Add α] [Div α] [NatCast α] (n : Nat)
    (all_logits : List (List α)) (hne : all_logits ≠ [])
    (hall : ∀ v ∈ all_logits, v.length = n) :
    average_logits all_logits =
      .ok ((all_logits.foldl (List.zipWith (· + ·)) (List.replicate n (0 : α))).map
        (fun x => x / (all_logits.length : α))) := by
  cases hq : all_logits with
  | nil => exact absurd hq hne
  | cons first rest =>
    have hfirst : first.length = n := hall first (by rw [hq]; exact List.mem_cons_self _ _)
    have hacc := accumulate_all_foldl n all_logits hall (List.replicate n (0 : α)) (by simp)
    rw [hq] at hacc
    simp only [average_logits, hfirst, hacc]

theorem binary32_rounding_examples :
    Binary32.ofInt 16777216 = ⟨1, 24⟩ ∧ Binary32.ofInt 16777217 = ⟨1, 24⟩ ∧
    Binary32.ofInt 16777219 = ⟨4194305, 2⟩ ∧
    Binary32.ofInt 1 / Binary32.ofInt 3 = ⟨11184811, -25⟩ ∧
    Binary32.ofInt 1 / Binary32.ofInt 10 = ⟨13421773, -27⟩ ∧
    Binary32.ofInt 16777216 + Binary32.ofInt 1 = Binary32.ofInt 16777216 := by
  decide

theorem load_experts_none {Session : Type} (load : String → Except String Session) :
    ∀ (entries : List String) (ss0 : List (String × Option Session)),
      (∀ entry ∈ entries, path_extension entry.data ≠ ".onnx".data) →
      load_experts load entries ss0 = .ok ss0 := by
  intro entries
  induction entries with
  | nil => intro ss0 _; rfl
  | cons entry rest ih =>
    intro ss0 h
    simp only [load_experts, if_neg (h entry (List.mem_cons_self _ _))]
    exact ih ss0 (fun e he => h e (List.mem_cons_of_mem _ he))

theorem construct_no_experts {Session : Type} (load : String → Except String Session)
    (entries : List String) (config : Config) (router : Session)
    (hrouter : load config.router_model_path = .ok router)
    (hnone : ∀ entry ∈ entries, path_extension entry.data ≠ ".onnx".data) :
    MSNetInference.construct load entries config = .error .runtime_error := by
  unfold MSNetInference.construct
  simp [hrouter, load_experts_none load entries [] hnone]

/-! ## Lemmas: fusion in an arbitrary arithmetic -/

theorem average_logits_pair_any {α : Type} [Zero α] [Add α] [Div α] [NatCast α]
    (hzero : ∀ x : α, 0 + x = x) (r x : List α) (hlen : x.length = r.length) :
    average_logits [r, x] =
      .ok (List.zipWith (fun a b => (a + b) / ((2 : Nat) : α)) r x) := by
  have h1 : accumulate (List.replicate r.length (0 : α)) r = .ok r := by
    rw [accumulate_eq _ _ (by simp), zipWith_zero_add hzero]
  have h2 : accumulate r x = .ok (List.zipWith (· + ·) r x) := accumulate_eq _ _ (by omega)
  simp only [average_logits, accumulate_all, h1, h2, List.length_cons, List.length_nil,
    List.map_zipWith]

theorem foldl_zipWith_column {α : Type} [Zero α] [Add α] (n : Nat) (l : List (List α))
    (hall : ∀ v ∈ l, v.length = n) :
    ∀ acc : List α, acc.length = n →
      (l.foldl (List.zipWith (· + ·)) acc).length = n ∧
      ∀ i, i < n → (l.foldl (List.zipWith (· + ·)) acc).getD i 0 =
        (l.map (fun v => v.getD i 0)).foldl (· + ·) (acc.getD i 0) := by
  induction l with
  | nil => intro acc hacc; exact ⟨hacc, fun i _ => rfl⟩
  | cons v rest ih =>
    intro acc hacc
    have hv : v.length = n := hall v (List.mem_cons_self _ _)
    obtain ⟨hlen, hcol⟩ := ih (fun w hw => hall w (List.mem_cons_of_mem _ hw))
      (List.zipWith (· + ·) acc v) (by simp [hacc, hv])
    refine ⟨hlen, ?_⟩
    intro i hi
    have h1 : i < acc.length := by omega
    have h2 : i < v.length := by omega
    have h3 : i < (List.zipWith (· + ·) acc v).length := by simp [hacc, hv, hi]
    simp only [List.foldl_cons, List.map_cons]
    rw [hcol i hi, List.getD_eq_getElem _ _ h3, List.getElem_zipWith,
      List.getD_eq_getElem _ _ h1, List.getD_eq_getElem _ _ h2]

theorem foldl_add_eq_sum {α : Type} [Zero α] [Add α] (hadd : ∀ x : α, x + 0 = x)
    (hassoc : ∀ x y z : α, x + y + z = x + (y + z)) (l : List α) :
    ∀ a : α, l.foldl (· + ·) a = a + l.sum := by
  induction l with
  | nil => intro a; simp [hadd]
  | cons b l ih =>
    intro a
    rw [List.foldl_cons, ih, List.sum_cons, hassoc]

/-- The vector `average_logits` returns, entry by entry, in any arithmetic. -/
theorem average_logits_entries {α : Type} [Zero α] [Add α] [Div α] [NatCast α]
    (all_logits : List (List α)) (n : Nat) (hne : all_logits ≠ [])
    (hall : ∀ l ∈ all_logits, l.length = n) :
    ∃ v, average_logits all_logits = .ok v ∧ v.length = n ∧
      ∀ i, i < n → v.getD i 0 =
        (all_logits.map (fun l => l.getD i 0)).foldl (· + ·) 0 / (all_logits.length : α) := by
  obtain ⟨hlen, hcol⟩ := foldl_zipWith_column n all_logits hall (List.replicate n (0 : α))
    (by simp)
  refine ⟨_, average_logits_foldl n all_logits hne hall, by simpa using hlen, ?_⟩
  intro i hi
  have h1 : i < (all_logits.foldl (List.zipWith (· + ·)) (List.replicate n (0 : α))).length := by
    omega
  have h2 : i < ((all_logits.foldl (List.zipWith (· + ·)) (List.replicate n (0 : α))).map
      (fun x => x / (all_logits.length : α))).length := by simpa using h1
  have h3 : i < (List.replicate n (0 : α)).length := by simpa using hi
  have hc := hcol i hi
  rw [List.getD_eq_getElem _ _ h1, List.getD_eq_getElem _ _ h3, List.getElem_replicate] at hc
  rw [List.getD_eq_getElem _ _ h2, List.getElem_map, hc]

/-! ## Lemmas: `predict` in an arbitrary arithmetic -/

theorem predict_expert_eq_any {Session Tensor α : Type} [LT α] [@DecidableRel α (· < ·)]
    [Zero α] [Add α] [Div α] [NatCast α]
    (sort : (Nat → Nat → Bool) → List Nat → List Nat) (B : Backend Session Tensor α)
    (self : MSNetInference Session) (input : List α) (t : Tensor) (router expert : Session)
    (r x : List α) (idx : List Nat) (sc : List α) (p1 p2 : Nat) (e : String)
    (ht : B.CreateTensor input input.length self.input_node_dims_ = .ok t)
    (hrs : self.router_session_ = some router)
    (hr : B.Run router t = .ok r)
    (htopk : get_topk_predictions sort r self.config_.topk = .ok (idx, sc))
    (hp1 : idx[0]? = some p1) (hp2 : idx[1]? = some p2)
    (hsel : select_expert self.expert_class_map_ (Int.ofNat p1) (Int.ofNat p2) = e)
    (he : e ≠ "")
    (hidx : map_index self.expert_sessions_ e = (self.expert_sessions_, some expert))
    (hx : B.Run expert t = .ok x) :
    predict sort B self input = predict_step5 self [router, expert] [r, x] := by
  obtain ⟨c, rs, es, cm, dims⟩ := self
  simp only at ht hrs htopk hsel hidx
  subst hrs
  unfold predict
  simp only [ht, hr, htopk, hp1, hp2, hsel, ne_eq, he, not_false_eq_true, if_true, hidx, hx]

theorem scripted32_CreateTensor_ok (script : List (String × List Binary32))
    (data : List Binary32) :
    (scriptedBackend32 script).CreateTensor data (List.replicate 3072 (0 : Binary32)).length
      [1, 3, 32, 32] = .ok [1, 3, 32, 32] := by
  simp [scriptedBackend32, -List.reduceReplicate]

theorem predict_close32 :
    predict stableSort (scriptedBackend32 closeScript) pairDispatcher (List.replicate 3072 0) =
      ⟨pairDispatcher, ["router", "0_1"],
        some [[Binary32.ofInt 5, Binary32.ofInt 5, Binary32.ofInt 0],
          [Binary32.ofInt 1, ⟨8388609, -23⟩, Binary32.ofInt 0]],
        some [Binary32.ofInt 3, Binary32.ofInt 3, Binary32.ofInt 0], .ok 0⟩ := by
  rw [predict_expert_eq_any stableSort (scriptedBackend32 closeScript) pairDispatcher
    (List.replicate 3072 0) [1, 3, 32, 32] "router" "0_1"
    [Binary32.ofInt 5, Binary32.ofInt 5, Binary32.ofInt 0]
    [Binary32.ofInt 1, ⟨8388609, -23⟩, Binary32.ofInt 0]
    [0, 1] [Binary32.ofInt 5, Binary32.ofInt 5] 0 1 "0_1"
    (scripted32_CreateTensor_ok _ _) rfl (by decide) (by decide) rfl rfl (by decide)
    (by decide) (by decide) (by decide)]
  have h : average_logits [[Binary32.ofInt 5, Binary32.ofInt 5, Binary32.ofInt 0],
      [Binary32.ofInt 1, ⟨8388609, -23⟩, Binary32.ofInt 0]]
      = .ok [Binary32.ofInt 3, Binary32.ofInt 3, Binary32.ofInt 0] := by decide
  have hm : max_element [Binary32.ofInt 3, Binary32.ofInt 3, Binary32.ofInt 0] = 0 := by
    decide
  simp only [predict_step5, h, hm]

theorem predict_demo32 :
    (predict stableSort (scriptedBackend32 demoScript32) demoDispatcher
      (List.replicate 3072 0)).result = .ok 1 := by
  rw [predict_expert_eq_any stableSort (scriptedBackend32 demoScript32) demoDispatcher
    (List.replicate 3072 0) [1, 3, 32, 32] "router" "1_2"
    [Binary32.ofInt 1 / Binary32.ofInt 10, Binary32.ofInt 9 / Binary32.ofInt 10,
      Binary32.ofInt 2 / Binary32.ofInt 10, Binary32.ofInt 5 / Binary32.ofInt 100]
    [Binary32.ofInt 2 / Binary32.ofInt 10, Binary32.ofInt 7 / Binary32.ofInt 10,
      Binary32.ofInt 3 / Binary32.ofInt 10, Binary32.ofInt 1 / Binary32.ofInt 10]
    [1, 2] [Binary32.ofInt 9 / Binary32.ofInt 10, Binary32.ofInt 2 / Binary32.ofInt 10]
    1 2 "1_2"
    (scripted32_CreateTensor_ok _ _) rfl (by decide) (by decide) rfl rfl (by decide)
    (by decide) (by decide) (by decide)]
  decide

/-! ## Claims -/

/-- C1: for every logit vector of length `n ≥ 2` and every `k` with `2 ≤ k ≤ n`,
`get_topk_predictions` returns an index list and a score list of length exactly
`k`; the indices are pairwise distinct and lie in `[0, n)`, the `i`-th score is
`logits[index_i]`, and the scores are in non-increasing order.  This holds for
every implementation of `std::sort` meeting the standard contract. -/
theorem get_topk_predictions_contract {α : Type} [LinearOrder α] [Zero α]
    (sort : (Nat → Nat → Bool) → List Nat → List Nat) (hS : IsStdSort sort)
    (logits : List α) (k : Int)
    (hk2 : 2 ≤ k) (hkn : k ≤ logits.length) :
    ∃ idx sc, get_topk_predictions sort logits k = .ok (idx, sc) ∧
      (idx.length : Int) = k ∧ (sc.length : Int) = k ∧ idx.Nodup ∧
      (∀ j ∈ idx, j < logits.length) ∧
      (∀ i : Nat, (i : Int) < k →
        ∃ j v, idx[i]? = some j ∧ logits[j]? = some v ∧ sc[i]? = some v) ∧
      sc.Pairwise (fun x y => y ≤ x) := by
  obtain ⟨_, hlen, hnodup, hvalid, hsorted⟩ := sorted_indices_facts sort hS logits
  refine ⟨_, _, get_topk_predictions_eq sort hS logits k (by omega) hkn, ?_, ?_, ?_, ?_, ?_, ?_⟩
  · rw [List.length_take, hlen]; omega
  · rw [List.length_map, List.length_take, hlen]; omega
  · exact hnodup.sublist (List.take_sublist _ _)
  · intro j hj
    exact hvalid j (List.mem_of_mem_take hj)
  · intro i hi
    have hi2 : i < ((sort (topk_comp logits) (List.range logits.length)).take k.toNat).length := by
      rw [List.length_take, hlen]; omega
    have hj := hvalid _ (List.mem_of_mem_take (List.getElem_mem hi2))
    refine ⟨_, _, List.getElem?_eq_getElem hi2, List.getElem?_eq_getElem hj, ?_⟩
    rw [List.getElem?_map, List.getElem?_eq_getElem hi2, Option.map_some',
      List.getD_eq_getElem _ _ hj]
  · rw [List.pairwise_map]
    exact (hsorted.sublist (List.take_sublist _ _))

/-- C1 at `logits = [0.1, 0.9, 0.2, 0.05]`, `k = 2`. -/
theorem get_topk_predictions_contract_witness :
    IsStdSort stableSort ∧ (2 : Int) ≤ 2 ∧
    (2 : Int) ≤ ([1/10, 9/10, 2/10, 5/100] : List ℚ).length ∧
    get_topk_predictions stableSort ([1/10, 9/10, 2/10, 5/100] : List ℚ) 2
      = .ok ([1, 2], [9/10, 2/10]) ∧
    ∃ idx sc, get_topk_predictions stableSort ([1/10, 9/10, 2/10, 5/100] : List ℚ) 2
        = .ok (idx, sc) ∧
      (idx.length : Int) = 2 ∧ (sc.length : Int) = 2 ∧ idx.Nodup ∧
      (∀ j ∈ idx, j < ([1/10, 9/10, 2/10, 5/100] : List ℚ).length) ∧
      (∀ i : Nat, (i : Int) < 2 →
        ∃ j v, idx[i]? = some j ∧ ([1/10, 9/10, 2/10, 5/100] : List ℚ)[j]? = some v ∧
          sc[i]? = some v) ∧
      sc.Pairwise (fun x y => y ≤ x) :=
  ⟨stableSort_isStdSort, by norm_num, by simp, topk_demo,
    get_topk_predictions_contract stableSort stableSort_isStdSort _ 2 (by norm_num) (by simp)⟩

/-- C2, as stated, fails: `std::sort` may leave equal-scored indices in any
order.  With an implementation that meets the contract of `std::sort` and two
equal scores, index `1` is ranked before index `0`, and for `k = 1` the
index returned is `1`, not `0`. -/
theorem get_topk_predictions_tie_not_lowest_first :
    IsStdSort reversingSort ∧
    get_topk_predictions reversingSort ([1, 1] : List ℚ) 2 = .ok ([1, 0], [1, 1]) ∧
    get_topk_predictions reversingSort ([1, 1] : List ℚ) 1 = .ok ([1], [1]) := by
  refine ⟨reversingSort_isStdSort, ?_, ?_⟩
  · simp [get_topk_predictions, reversingSort, topk_loop, List.range, List.range.loop,
      List.insertionSort, List.orderedInsert]
    norm_num [notAfter, topk_comp]
  · simp [get_topk_predictions, reversingSort, topk_loop, List.range, List.range.loop,
      List.insertionSort, List.orderedInsert]
    norm_num [notAfter, topk_comp]

/-- C2, amended: for every logit vector and every `k` with `1 ≤ k ≤ length`,
`get_topk_predictions` returns `k` pairwise distinct in-range indices ranked
by non-increasing score (so of two returned indices with different scores the
one with the higher score comes first), and no index left out has a higher
score than a returned one.  Nothing is fixed about the relative order of
indices whose scores are equal. -/
theorem get_topk_predictions_ranking {α : Type} [LinearOrder α] [Zero α]
    (sort : (Nat → Nat → Bool) → List Nat → List Nat) (hS : IsStdSort sort)
    (logits : List α) (k : Int) (hk1 : 1 ≤ k) (hkn : k ≤ logits.length) :
    ∃ idx sc, get_topk_predictions sort logits k = .ok (idx, sc) ∧
      (idx.length : Int) = k ∧ idx.Nodup ∧ (∀ j ∈ idx, j < logits.length) ∧
      idx.Pairwise (fun a b => logits.getD b 0 ≤ logits.getD a 0) ∧
      (∀ a ∈ idx, ∀ b, b < logits.length → b ∉ idx → logits.getD b 0 ≤ logits.getD a 0) := by
  obtain ⟨hperm, hlen, hnodup, hvalid, hsorted⟩ := sorted_indices_facts sort hS logits
  refine ⟨_, _, get_topk_predictions_eq sort hS logits k (by omega) hkn, ?_, ?_, ?_, ?_, ?_⟩
  · rw [List.length_take, hlen]; omega
  · exact hnodup.sublist (List.take_sublist _ _)
  · intro j hj
    exact hvalid j (List.mem_of_mem_take hj)
  · exact hsorted.sublist (List.take_sublist _ _)
  · intro a ha b hb hnot
    have hmem : b ∈ sort (topk_comp logits) (List.range logits.length) :=
      hperm.mem_iff.mpr (List.mem_range.mpr hb)
    rw [← List.take_append_drop k.toNat (sort (topk_comp logits) (List.range logits.length))]
      at hmem hsorted
    rcases List.mem_append.mp hmem with h | h
    · exact absurd h hnot
    · exact (List.pairwise_append.mp hsorted).2.2 a ha b h

/-- C2 amended, at two equal scores and `k = 1`. -/
theorem get_topk_predictions_ranking_witness :
    IsStdSort reversingSort ∧ (1 : Int) ≤ 1 ∧ (1 : Int) ≤ ([1, 1] : List ℚ).length ∧
    ∃ idx sc, get_topk_predictions reversingSort ([1, 1] : List ℚ) 1 = .ok (idx, sc) ∧
      (idx.length : Int) = 1 ∧ idx.Nodup ∧ (∀ j ∈ idx, j < ([1, 1] : List ℚ).length) ∧
      idx.Pairwise (fun a b => ([1, 1] : List ℚ).getD b 0 ≤ ([1, 1] : List ℚ).getD a 0) ∧
      (∀ a ∈ idx, ∀ b, b < ([1, 1] : List ℚ).length → b ∉ idx →
        ([1, 1] : List ℚ).getD b 0 ≤ ([1, 1] : List ℚ).getD a 0) :=
  ⟨reversingSort_isStdSort, by norm_num, by simp,
    get_topk_predictions_ranking reversingSort reversingSort_isStdSort [1, 1] 1 (by norm_num)
      (by simp)⟩

/-- C3: on every expert class map built by `parse_expert_class_map`, and for
every pair `(pred1, pred2)`, the selection loop of `predict` returns the first
key, in lexicographic key order, whose class-ID sequence contains both
`pred1` and `pred2` (first part: whenever some expert covers both, the key
returned is a covering expert and no covering expert has a smaller key); and
it returns "no match" (the empty `selected_expert_key`) exactly when no
class-ID sequence contains both. -/
theorem select_expert_first_match {Session : Type}
    (sessions : List (String × Option Session)) (m : List (String × List Int))
    (hm : parse_expert_class_map_loop sessions [] = .ok m) (pred1 pred2 : Int) :
    (∀ key classes, (key, classes) ∈ m → pred1 ∈ classes → pred2 ∈ classes →
      ∃ classes0, (select_expert m pred1 pred2, classes0) ∈ m ∧
        pred1 ∈ classes0 ∧ pred2 ∈ classes0 ∧
        (select_expert m pred1 pred2 = key ∨ string_less (select_expert m pred1 pred2) key)) ∧
    (select_expert m pred1 pred2 = "" ↔
      ∀ key classes, (key, classes) ∈ m → ¬ (pred1 ∈ classes ∧ pred2 ∈ classes)) := by
  obtain ⟨hsorted, hparse⟩ := parse_expert_class_map_loop_inv sessions [] m hm
    (by simp [KeysSorted]) (by intro key classes h; exact absurd h (List.not_mem_nil _))
  refine ⟨fun key classes hmem h1 h2 => select_expert_first hsorted pred1 pred2 key classes hmem h1 h2,
    ⟨?_, select_expert_none pred1 pred2⟩⟩
  intro hsel key classes hmem hcov
  obtain ⟨c0, hc0, hp1, _, _⟩ := select_expert_first hsorted pred1 pred2 key classes hmem hcov.1 hcov.2
  rw [hsel] at hc0
  have hempty : parse_key "" = .ok c0 := hparse "" c0 hc0
  have hnil : c0 = [] := by
    have h0 : parse_key "" = .ok [] := by decide
    rw [h0] at hempty
    injection hempty with h
    exact h.symm
  rw [hnil] at hp1
  exact absurd hp1 (List.not_mem_nil _)

/-- C3 at the experts `1_2` and `0_3` with the pair `(1, 2)`. -/
theorem select_expert_first_match_witness :
    parse_expert_class_map_loop [("0_3", some "0_3"), ("1_2", some "1_2")] []
      = .ok [("0_3", [0, 3]), ("1_2", [1, 2])] ∧
    select_expert [("0_3", [0, 3]), ("1_2", [1, 2])] 1 2 = "1_2" ∧
    select_expert [("0_3", [0, 3]), ("1_2", [1, 2])] 1 3 = "" ∧
    ((∀ key classes, (key, classes) ∈ [("0_3", [0, 3]), ("1_2", [1, 2])] →
        (1 : Int) ∈ classes → (2 : Int) ∈ classes →
      ∃ classes0, (select_expert [("0_3", [0, 3]), ("1_2", [1, 2])] 1 2, classes0)
          ∈ [("0_3", [0, 3]), ("1_2", [1, 2])] ∧
        (1 : Int) ∈ classes0 ∧ (2 : Int) ∈ classes0 ∧
        (select_expert [("0_3", [0, 3]), ("1_2", [1, 2])] 1 2 = key ∨
          string_less (select_expert [("0_3", [0, 3]), ("1_2", [1, 2])] 1 2) key)) ∧
    (select_expert [("0_3", [0, 3]), ("1_2", [1, 2])] 1 2 = "" ↔
      ∀ key classes, (key, classes) ∈ [("0_3", [0, 3]), ("1_2", [1, 2])] →
        ¬ ((1 : Int) ∈ classes ∧ (2 : Int) ∈ classes))) :=
  ⟨by decide, by decide, by decide,
    select_expert_first_match [("0_3", some "0_3"), ("1_2", some "1_2")]
      [("0_3", [0, 3]), ("1_2", [1, 2])] (by decide) 1 2⟩

/-- C4, as stated, fails on `float`: every addition and the division round.
For the two one-element vectors `[2^24]` and `[1]` the sum `2^24 + 1` rounds
to `2^24`, and `average_logits` returns `2^23 = 8388608`, which is not the
arithmetic mean `16777217 / 2` of the two inputs. -/
theorem average_logits_float_not_exact_mean :
    average_logits [[Binary32.ofInt 16777216], [Binary32.ofInt 1]] = .ok [⟨1, 23⟩] ∧
    Binary32.toRat ⟨1, 23⟩ = 8388608 ∧
    (Binary32.toRat (Binary32.ofInt 16777216) + Binary32.toRat (Binary32.ofInt 1)) / 2
      = 16777217 / 2 ∧
    Binary32.toRat ⟨1, 23⟩ ≠
      (Binary32.toRat (Binary32.ofInt 16777216) + Binary32.toRat (Binary32.ofInt 1)) / 2 := by
  have h1 : Binary32.ofInt 16777216 = ⟨1, 24⟩ := by decide
  have h2 : Binary32.ofInt 1 = ⟨1, 0⟩ := by decide
  refine ⟨by decide, by norm_num [Binary32.toRat], ?_, ?_⟩
  · rw [h1, h2]; norm_num [Binary32.toRat]
  · rw [h1, h2]; norm_num [Binary32.toRat]

/-- C4, amended: for every non-empty sequence of logit vectors that all have
length `n`, and in whatever arithmetic the scores live (that of `float`
included), `average_logits` returns a vector of length `n` whose `i`-th
element is the sum of the `i`-th elements of the inputs, accumulated from `0`
in sequence order with the addition of that arithmetic, divided by the
number of vectors with its division.  When the additions are exact
(`0 + x = x`, `x + 0 = x`, associativity) this is the sum of the `i`-th
elements divided by the number of vectors. -/
theorem average_logits_rounded_mean {α : Type} [Zero α] [Add α] [Div α] [NatCast α]
    (all_logits : List (List α)) (n : Nat) (hne : all_logits ≠ [])
    (hall : ∀ l ∈ all_logits, l.length = n) :
    ∃ v, average_logits all_logits = .ok v ∧ v.length = n ∧
      (∀ i, i < n → v.getD i 0 =
        (all_logits.map (fun l => l.getD i 0)).foldl (· + ·) 0 / (all_logits.length : α)) ∧
      ((∀ x : α, 0 + x = x) → (∀ x : α, x + 0 = x) →
        (∀ x y z : α, x + y + z = x + (y + z)) →
        ∀ i, i < n → v.getD i 0 =
          (all_logits.map (fun l => l.getD i 0)).sum / (all_logits.length : α)) := by
  obtain ⟨v, hv, hlen, hcol⟩ := average_logits_entries all_logits n hne hall
  refine ⟨v, hv, hlen, hcol, ?_⟩
  intro hzero hadd hassoc i hi
  rw [hcol i hi, foldl_add_eq_sum hadd hassoc, hzero]

/-- C4 amended, in `float` at the vectors `[2^24]` and `[1]`, with the
vectors `[0.1, 0.9, 0.2, 0.05]` and `[0.2, 0.7, 0.3, 0.1]` evaluated over the
rationals. -/
theorem average_logits_rounded_mean_witness :
    ([[Binary32.ofInt 16777216], [Binary32.ofInt 1]] : List (List Binary32)) ≠ [] ∧
    (∀ l ∈ ([[Binary32.ofInt 16777216], [Binary32.ofInt 1]] : List (List Binary32)),
      l.length = 1) ∧
    average_logits ([[1/10, 9/10, 2/10, 5/100], [2/10, 7/10, 3/10, 1/10]] : List (List ℚ))
      = .ok [15/100, 8/10, 25/100, 75/1000] ∧
    ∃ v, average_logits [[Binary32.ofInt 16777216], [Binary32.ofInt 1]] = .ok v ∧
      v.length = 1 ∧
      (∀ i, i < 1 → v.getD i 0 =
        (([[Binary32.ofInt 16777216], [Binary32.ofInt 1]] : List (List Binary32)).map
          (fun l => l.getD i 0)).foldl (· + ·) 0 /
          ((([[Binary32.ofInt 16777216], [Binary32.ofInt 1]] : List (List Binary32)).length
            : Nat) : Binary32)) ∧
      ((∀ x : Binary32, 0 + x = x) → (∀ x : Binary32, x + 0 = x) →
        (∀ x y z : Binary32, x + y + z = x + (y + z)) →
        ∀ i, i < 1 → v.getD i 0 =
          (([[Binary32.ofInt 16777216], [Binary32.ofInt 1]] : List (List Binary32)).map
            (fun l => l.getD i 0)).sum /
            ((([[Binary32.ofInt 16777216], [Binary32.ofInt 1]] : List (List Binary32)).length
              : Nat) : Binary32)) :=
  ⟨by simp, by simp, by norm_num [average_logits, accumulate_all, accumulate],
    average_logits_rounded_mean _ 1 (by simp) (by simp)⟩

/-- C5: whenever `predict` reaches a non-empty fused logit vector `f`, it
returns an index `p` with `p < f.length` such that `f[p]` is the greatest
value of `f` and every smaller index holds a strictly smaller value. -/
theorem predict_returns_first_argmax {Session Tensor α : Type} [LinearOrderedField α]
    (sort : (Nat → Nat → Bool) → List Nat → List Nat) (B : Backend Session Tensor α)
    (self : MSNetInference Session) (input : List α) (f : List α)
    (hf : (predict sort B self input).final_logits = some f) (hne : f ≠ []) :
    ∃ p, (predict sort B self input).result = .ok p ∧ p < f.length ∧
      (∀ j, j < f.length → f.getD j 0 ≤ f.getD p 0) ∧
      (∀ j, j < p → f.getD j 0 < f.getD p 0) :=
  ⟨max_element f, predict_final sort B self input f hf, max_element_spec f hne⟩

/-- C5 on the end-to-end scenario, fused vector `[0.15, 0.8, 0.25, 0.075]`. -/
theorem predict_returns_first_argmax_witness :
    (predict stableSort (scriptedBackend demoScript) demoDispatcher
      (List.replicate 3072 0)).final_logits = some [15/100, 8/10, 25/100, 75/1000] ∧
    ([15/100, 8/10, 25/100, 75/1000] : List ℚ) ≠ [] ∧
    (predict stableSort (scriptedBackend demoScript) demoDispatcher
      (List.replicate 3072 0)).result = .ok 1 ∧
    ∃ p, (predict stableSort (scriptedBackend demoScript) demoDispatcher
        (List.replicate 3072 0)).result = .ok p ∧
      p < ([15/100, 8/10, 25/100, 75/1000] : List ℚ).length ∧
      (∀ j, j < ([15/100, 8/10, 25/100, 75/1000] : List ℚ).length →
        ([15/100, 8/10, 25/100, 75/1000] : List ℚ).getD j 0
          ≤ ([15/100, 8/10, 25/100, 75/1000] : List ℚ).getD p 0) ∧
      (∀ j, j < p → ([15/100, 8/10, 25/100, 75/1000] : List ℚ).getD j 0
          < ([15/100, 8/10, 25/100, 75/1000] : List ℚ).getD p 0) :=
  ⟨by rw [predict_demo], by simp, by rw [predict_demo],
    predict_returns_first_argmax stableSort (scriptedBackend demoScript) demoDispatcher
      (List.replicate 3072 0) [15/100, 8/10, 25/100, 75/1000] (by rw [predict_demo]) (by simp)⟩

/-- C6, as stated, fails on `float`: the fused values are rounded, and the
arg-max of the rounded values need not be that of the element-wise mean.
With router logits `[5, 5, 0]` and expert logits `[1, 1 + 2^-23, 0]` the
element-wise mean is `[3, 3 + 2^-24, 0]`, greatest at index `1`; `predict`
fuses to `[3, 3, 0]` (`6 + 2^-23` rounds to `6`) and returns `0`. -/
theorem predict_float_argmax_not_of_exact_mean :
    List.map Binary32.toRat [Binary32.ofInt 5, Binary32.ofInt 5, Binary32.ofInt 0]
      = [5, 5, 0] ∧
    List.map Binary32.toRat [Binary32.ofInt 1, ⟨8388609, -23⟩, Binary32.ofInt 0]
      = [1, 8388609 / 8388608, 0] ∧
    List.zipWith (fun a b => (a + b) / 2) ([5, 5, 0] : List ℚ) [1, 8388609 / 8388608, 0]
      = [3, 50331649 / 16777216, 0] ∧
    max_element ([3, 50331649 / 16777216, 0] : List ℚ) = 1 ∧
    predict stableSort (scriptedBackend32 closeScript) pairDispatcher (List.replicate 3072 0) =
      ⟨pairDispatcher, ["router", "0_1"],
        some [[Binary32.ofInt 5, Binary32.ofInt 5, Binary32.ofInt 0],
          [Binary32.ofInt 1, ⟨8388609, -23⟩, Binary32.ofInt 0]],
        some [Binary32.ofInt 3, Binary32.ofInt 3, Binary32.ofInt 0], .ok 0⟩ := by
  have h5 : Binary32.ofInt 5 = ⟨5, 0⟩ := by decide
  have h1 : Binary32.ofInt 1 = ⟨1, 0⟩ := by decide
  have h0 : Binary32.ofInt 0 = ⟨0, 0⟩ := by decide
  refine ⟨?_, ?_, by norm_num, by norm_num [max_element, max_element_loop], predict_close32⟩
  · rw [h5, h0]; norm_num [Binary32.toRat]
  · rw [h1, h0]; norm_num [Binary32.toRat]

/-- C6, amended: let the router return `r`, let top-K return at least two
indices `p1, p2` (so `topk ≥ 2`), let the selection loop return the non-empty
key `e`, let `expert_sessions_[e]` be the loaded session `expert`, and let
that session return `x` with `x.size() = r.size()`.  Then, in whatever
ordered arithmetic the scores live (that of `float` included, with
`0 + x = x`), `predict` runs the backend on the router and on `expert` only,
fuses exactly `[r, x]`, obtains the vector of the values `(r[i] + x[i]) / 2`
computed with the addition and division of that arithmetic, and returns the
lowest index at which this computed vector is greatest; the dispatcher
object is unchanged. -/
theorem predict_expert_refinement {Session Tensor α : Type} [LinearOrder α] [Zero α] [Add α]
    [Div α] [NatCast α] (hzero : ∀ x : α, 0 + x = x)
    (sort : (Nat → Nat → Bool) → List Nat → List Nat) (B : Backend Session Tensor α)
    (self : MSNetInference Session) (input : List α) (t : Tensor) (router expert : Session)
    (r x : List α) (idx : List Nat) (sc : List α) (p1 p2 : Nat) (e : String)
    (ht : B.CreateTensor input input.length self.input_node_dims_ = .ok t)
    (hrs : self.router_session_ = some router)
    (hr : B.Run router t = .ok r)
    (htopk : get_topk_predictions sort r self.config_.topk = .ok (idx, sc))
    (hp1 : idx[0]? = some p1) (hp2 : idx[1]? = some p2)
    (hsel : select_expert self.expert_class_map_ (Int.ofNat p1) (Int.ofNat p2) = e)
    (he : e ≠ "")
    (hidx : map_index self.expert_sessions_ e = (self.expert_sessions_, some expert))
    (hx : B.Run expert t = .ok x) (hlen : x.length = r.length) :
    predict sort B self input =
      ⟨self, [router, expert], some [r, x],
        some (List.zipWith (fun a b => (a + b) / ((2 : Nat) : α)) r x),
        .ok (max_element (List.zipWith (fun a b => (a + b) / ((2 : Nat) : α)) r x))⟩ ∧
    IsFirstArgmax (List.zipWith (fun a b => (a + b) / ((2 : Nat) : α)) r x)
      (max_element (List.zipWith (fun a b => (a + b) / ((2 : Nat) : α)) r x)) := by
  constructor
  · rw [predict_expert_eq_any sort B self input t router expert r x idx sc p1 p2 e ht hrs hr
      htopk hp1 hp2 hsel he hidx hx, predict_step5, average_logits_pair_any hzero r x hlen]
  · apply max_element_spec
    have hr0 : r ≠ [] := get_topk_predictions_nonempty sort r _ idx sc p1 htopk hp1
    intro hz
    have := congrArg List.length hz
    rw [List.length_zipWith, hlen, Nat.min_self] at this
    exact hr0 (List.length_eq_zero.mp this)

/-- C6 amended, on the scenario of the specification: router logits
`[0.1, 0.9, 0.2, 0.05]`, `k = 2`, experts `1_2` and `0_3`, expert logits
`[0.2, 0.7, 0.3, 0.1]`: top-K indices `[1, 2]`, expert `1_2`, fused
`[0.15, 0.8, 0.25, 0.075]` over the rationals, and prediction `1` both over
the rationals and in `float`. -/
theorem predict_expert_refinement_witness :
    get_topk_predictions stableSort ([1/10, 9/10, 2/10, 5/100] : List ℚ)
      demoDispatcher.config_.topk = .ok ([1, 2], [9/10, 2/10]) ∧
    select_expert demoDispatcher.expert_class_map_ (Int.ofNat 1) (Int.ofNat 2) = "1_2" ∧
    List.zipWith (fun a b => (a + b) / ((2 : Nat) : ℚ)) ([1/10, 9/10, 2/10, 5/100] : List ℚ)
      [2/10, 7/10, 3/10, 1/10] = [15/100, 8/10, 25/100, 75/1000] ∧
    max_element ([15/100, 8/10, 25/100, 75/1000] : List ℚ) = 1 ∧
    (predict stableSort (scriptedBackend32 demoScript32) demoDispatcher
      (List.replicate 3072 0)).result = .ok 1 ∧
    predict stableSort (scriptedBackend demoScript) demoDispatcher (List.replicate 3072 0) =
      ⟨demoDispatcher, ["router", "1_2"],
        some [[1/10, 9/10, 2/10, 5/100], [2/10, 7/10, 3/10, 1/10]],
        some (List.zipWith (fun a b => (a + b) / ((2 : Nat) : ℚ))
          ([1/10, 9/10, 2/10, 5/100] : List ℚ) [2/10, 7/10, 3/10, 1/10]),
        .ok (max_element (List.zipWith (fun a b => (a + b) / ((2 : Nat) : ℚ))
          ([1/10, 9/10, 2/10, 5/100] : List ℚ) [2/10, 7/10, 3/10, 1/10]))⟩ ∧
    IsFirstArgmax (List.zipWith (fun a b => (a + b) / ((2 : Nat) : ℚ))
        ([1/10, 9/10, 2/10, 5/100] : List ℚ) [2/10, 7/10, 3/10, 1/10])
      (max_element (List.zipWith (fun a b => (a + b) / ((2 : Nat) : ℚ))
        ([1/10, 9/10, 2/10, 5/100] : List ℚ) [2/10, 7/10, 3/10, 1/10])) :=
  ⟨topk_demo, by decide, by norm_num, by norm_num [max_element, max_element_loop],
    predict_demo32,
    predict_expert_refinement zero_add stableSort (scriptedBackend demoScript) demoDispatcher
      (List.replicate 3072 0) [1, 3, 32, 32] "router" "1_2" [1/10, 9/10, 2/10, 5/100]
      [2/10, 7/10, 3/10, 1/10] [1, 2] [9/10, 2/10] 1 2 "1_2"
      (scripted_CreateTensor_ok _ _) rfl (by simp [scriptedBackend, demoScript, List.lookup])
      topk_demo rfl rfl (by decide) (by decide) (by decide)
      (by simp [scriptedBackend, demoScript, List.lookup]) (by simp)⟩

/-- C7: let the router return `r` and top-K return at least two indices
`p1, p2`.  If no class-ID sequence of the expert class map contains both,
`predict` runs the backend on the router only, hands exactly `[r]` to
`average_logits`, obtains `r` itself, and returns the lowest index at which
`r` is greatest. -/
theorem predict_no_match {Session Tensor α : Type} [LinearOrderedField α]
    (sort : (Nat → Nat → Bool) → List Nat → List Nat) (B : Backend Session Tensor α)
    (self : MSNetInference Session) (input : List α) (t : Tensor) (router : Session)
    (r : List α) (idx : List Nat) (sc : List α) (p1 p2 : Nat)
    (ht : B.CreateTensor input input.length self.input_node_dims_ = .ok t)
    (hrs : self.router_session_ = some router)
    (hr : B.Run router t = .ok r)
    (htopk : get_topk_predictions sort r self.config_.topk = .ok (idx, sc))
    (hp1 : idx[0]? = some p1) (hp2 : idx[1]? = some p2)
    (hno : ∀ key classes, (key, classes) ∈ self.expert_class_map_ →
      ¬ (Int.ofNat p1 ∈ classes ∧ Int.ofNat p2 ∈ classes)) :
    predict sort B self input = ⟨self, [router], some [r], some r, .ok (max_element r)⟩ ∧
    IsFirstArgmax r (max_element r) := by
  constructor
  · rw [predict_no_match_eq sort B self input t router r idx sc p1 p2 ht hrs hr htopk hp1 hp2
      (select_expert_none _ _ hno), predict_step5, average_logits_single]
  · exact max_element_spec r (get_topk_predictions_nonempty sort r _ idx sc p1 htopk hp1)

/-- C7 on the scenario of the specification: router logits
`[0.1, 0.9, 0.2, 0.05]`, `k = 2`, the single expert `0_3`: no match, and the
prediction is `1`. -/
theorem predict_no_match_witness :
    select_expert routerOnlyDispatcher.expert_class_map_ (Int.ofNat 1) (Int.ofNat 2) = "" ∧
    max_element ([1/10, 9/10, 2/10, 5/100] : List ℚ) = 1 ∧
    predict stableSort (scriptedBackend demoScript) routerOnlyDispatcher (List.replicate 3072 0)
      = ⟨routerOnlyDispatcher, ["router"], some [[1/10, 9/10, 2/10, 5/100]],
          some [1/10, 9/10, 2/10, 5/100], .ok (max_element ([1/10, 9/10, 2/10, 5/100] : List ℚ))⟩ ∧
    IsFirstArgmax ([1/10, 9/10, 2/10, 5/100] : List ℚ)
      (max_element ([1/10, 9/10, 2/10, 5/100] : List ℚ)) :=
  ⟨by decide, by norm_num [max_element, max_element_loop],
    predict_no_match stableSort (scriptedBackend demoScript) routerOnlyDispatcher
      (List.replicate 3072 0) [1, 3, 32, 32] "router" [1/10, 9/10, 2/10, 5/100]
      [1, 2] [9/10, 2/10] 1 2
      (scripted_CreateTensor_ok _ _) rfl (by simp [scriptedBackend, demoScript, List.lookup])
      topk_demo rfl rfl
      (by
        intro key classes hmem
        simp only [routerOnlyDispatcher, List.mem_singleton, Prod.mk.injEq] at hmem
        obtain ⟨_, hc⟩ := hmem
        subst hc
        decide)⟩

/-- C8, as stated, fails: the segment `23abc` of the key `5_23abc` is not an
integer, yet it is not skipped; it contributes `23`. -/
theorem parse_key_keeps_non_integer_segment :
    parse_key "5_23abc" = .ok [5, 23] ∧ spec_class_ids "5_23abc" = [5] ∧
    parse_key "5_23abc" ≠ .ok (spec_class_ids "5_23abc") := by
  decide

/-- C8, amended: for every expert key none of whose segments starts with an
integer outside `int`, the class-ID sequence computed and stored by
`parse_expert_class_map` is the in-order list of the integers the
underscore-separated segments start with (white space, an optional sign,
then digits; text after the digits is ignored); a segment that does not start
with an integer is skipped. -/
theorem parse_key_leading_integers (key : String)
    (hfit : ∀ v ∈ (split_underscore key.data).filterMap leading_integer, fits_int v) :
    parse_key key = .ok ((split_underscore key.data).filterMap leading_integer) ∧
    ∀ (Session : Type) (sessions : List (String × Option Session))
      (m : List (String × List Int)),
      parse_expert_class_map_loop sessions [] = .ok m →
      ∀ classes, (key, classes) ∈ m →
        classes = (split_underscore key.data).filterMap leading_integer := by
  refine ⟨parse_key_eq key hfit, ?_⟩
  intro Session sessions m hm classes hmem
  have h := (parse_expert_class_map_loop_inv sessions [] m hm (by simp [KeysSorted])
    (by intro k c h; exact absurd h (List.not_mem_nil _))).2 key classes hmem
  rw [parse_key_eq key hfit] at h
  injection h with h
  exact h.symm

/-- C8 amended, at the keys `5_23`, `5_abc_23`, the empty key and `5_23abc`. -/
theorem parse_key_leading_integers_witness :
    parse_key "5_23" = .ok [5, 23] ∧ parse_key "5_abc_23" = .ok [5, 23] ∧
    parse_key "" = .ok [] ∧
    (split_underscore "5_23abc".data).filterMap leading_integer = [5, 23] ∧
    (∀ v ∈ (split_underscore "5_23abc".data).filterMap leading_integer, fits_int v) ∧
    parse_key "5_23abc" = .ok ((split_underscore "5_23abc".data).filterMap leading_integer) ∧
    ∀ (Session : Type) (sessions : List (String × Option Session))
      (m : List (String × List Int)),
      parse_expert_class_map_loop sessions [] = .ok m →
      ∀ classes, ("5_23abc", classes) ∈ m →
        classes = (split_underscore "5_23abc".data).filterMap leading_integer :=
  ⟨by decide, by decide, by decide, by decide, by decide,
    parse_key_leading_integers "5_23abc" (by decide)⟩

/-- C9: the code at the failing input.  For the key `99999999999` `std::stoi`
raises `std::out_of_range`, which the handler for `std::invalid_argument`
does not catch: `parse_expert_class_map` raises instead of skipping the
segment, and no class map is produced. -/
theorem parse_expert_class_map_raises_out_of_range :
    stoi "99999999999".data = .error .out_of_range ∧
    parse_key "99999999999" = .error .out_of_range ∧
    parse_expert_class_map oversizedDispatcher = .error .out_of_range := by
  refine ⟨by decide, by decide, ?_⟩
  rfl

/-- C10, as stated, fails: with the configured input size `3 x 32 x 32 = 3072`
and a buffer of length `3073`, tensor creation succeeds and `predict` runs the
router and the expert and returns a prediction. -/
theorem predict_length_mismatch_not_rejected :
    ((List.replicate 3073 (0 : ℚ)).length : Int) ≠
      demoDispatcher.config_.input_channels * demoDispatcher.config_.input_height *
        demoDispatcher.config_.input_width ∧
    (predict stableSort (scriptedBackend demoScript) demoDispatcher
      (List.replicate 3073 0)).calls = ["router", "1_2"] ∧
    (predict stableSort (scriptedBackend demoScript) demoDispatcher
      (List.replicate 3073 0)).result = .ok 1 := by
  have h : predict stableSort (scriptedBackend demoScript) demoDispatcher
      (List.replicate 3073 0) =
      ⟨demoDispatcher, ["router", "1_2"],
        some [[1/10, 9/10, 2/10, 5/100], [2/10, 7/10, 3/10, 1/10]],
        some [15/100, 8/10, 25/100, 75/1000], .ok 1⟩ := by
    rw [predict_expert_eq stableSort (scriptedBackend demoScript) demoDispatcher
      (List.replicate 3073 0) [1, 3, 32, 32] "router" "1_2" [1/10, 9/10, 2/10, 5/100]
      [2/10, 7/10, 3/10, 1/10] [1, 2] [9/10, 2/10] 1 2 "1_2"
      (scripted_CreateTensor_long _ _) rfl (by simp [scriptedBackend, demoScript, List.lookup])
      topk_demo rfl rfl (by decide) (by decide) (by decide)
      (by simp [scriptedBackend, demoScript, List.lookup])]
    rw [predict_step5, average_logits_pair [1/10, 9/10, 2/10, 5/100] [2/10, 7/10, 3/10, 1/10]
      (by simp)]
    norm_num [max_element, max_element_loop]
  refine ⟨?_, by rw [h], by rw [h]⟩
  simp [demoDispatcher, -List.reduceReplicate]

/-- C10, amended: `predict` compares no lengths itself; it hands the buffer,
its length and the configured shape to the tensor constructor of the runtime.
For a dispatcher with a loaded router, the call ends before any backend `Run`
exactly when that constructor fails, and the constructor's failure is what
the caller receives. -/
theorem predict_rejects_iff_tensor_creation_fails {Session Tensor α : Type}
    [LinearOrderedField α] (sort : (Nat → Nat → Bool) → List Nat → List Nat)
    (B : Backend Session Tensor α) (self : MSNetInference Session) (input : List α)
    (router : Session) (hrs : self.router_session_ = some router) :
    ((predict sort B self input).calls = [] ↔
      ∃ msg, B.CreateTensor input input.length self.input_node_dims_ = .error msg) ∧
    (∀ msg, B.CreateTensor input input.length self.input_node_dims_ = .error msg →
      predict sort B self input = ⟨self, [], none, none, .error (.ort_exception msg)⟩) := by
  have hfail : ∀ msg, B.CreateTensor input input.length self.input_node_dims_ = .error msg →
      predict sort B self input = ⟨self, [], none, none, .error (.ort_exception msg)⟩ := by
    intro msg hmsg
    unfold predict
    simp only [hmsg]
  refine ⟨⟨?_, ?_⟩, hfail⟩
  · intro hcalls
    cases ht : B.CreateTensor input input.length self.input_node_dims_ with
    | error msg => exact ⟨msg, rfl⟩
    | ok t =>
      have := predict_calls_of_tensor sort B self input t router ht hrs
      rw [hcalls] at this
      simp at this
  · rintro ⟨msg, hmsg⟩
    rw [hfail msg hmsg]

/-- C10 amended, at configured size `3072` and a buffer of length `3071`: the
runtime's size check fails and no backend `Run` takes place. -/
theorem predict_rejects_iff_tensor_creation_fails_witness :
    demoDispatcher.router_session_ = some "router" ∧
    (scriptedBackend demoScript).CreateTensor (List.replicate 3071 0)
      (List.replicate 3071 (0 : ℚ)).length demoDispatcher.input_node_dims_
        = .error "not enough space" ∧
    ((predict stableSort (scriptedBackend demoScript) demoDispatcher
        (List.replicate 3071 0)).calls = [] ↔
      ∃ msg, (scriptedBackend demoScript).CreateTensor (List.replicate 3071 0)
        (List.replicate 3071 (0 : ℚ)).length demoDispatcher.input_node_dims_ = .error msg) ∧
    (∀ msg, (scriptedBackend demoScript).CreateTensor (List.replicate 3071 0)
        (List.replicate 3071 (0 : ℚ)).length demoDispatcher.input_node_dims_ = .error msg →
      predict stableSort (scriptedBackend demoScript) demoDispatcher (List.replicate 3071 0)
        = ⟨demoDispatcher, [], none, none, .error (.ort_exception msg)⟩) :=
  ⟨rfl, scripted_CreateTensor_short _ _,
    predict_rejects_iff_tensor_creation_fails stableSort (scriptedBackend demoScript)
      demoDispatcher (List.replicate 3071 0) "router" rfl⟩

/-- C11: what the code does when `topk < 2`.  `predict` never skips the
selection step: it reads `top_router_preds.first[0]` and `first[1]`
whatever `topk` is, so with fewer than two indices returned the read is out
of range (or `reserve` raises for a negative `topk`); no prediction is ever
returned and `average_logits` is never reached. -/
theorem predict_topk_lt_two_never_returns {Session Tensor α : Type} [LinearOrderedField α]
    (sort : (Nat → Nat → Bool) → List Nat → List Nat) (B : Backend Session Tensor α)
    (self : MSNetInference Session) (input : List α) (hk : self.config_.topk < 2) :
    (∀ p, (predict sort B self input).result ≠ .ok p) ∧
    (predict sort B self input).logits_to_average = none := by
  cases ht : B.CreateTensor input input.length self.input_node_dims_ with
  | error msg => simp [predict, ht]
  | ok t =>
    cases hrs : self.router_session_ with
    | none => simp [predict, ht, hrs]
    | some router =>
      cases hr : B.Run router t with
      | error msg => simp [predict, ht, hrs, hr]
      | ok r =>
        cases htk : get_topk_predictions sort r self.config_.topk with
        | error e => simp [predict, ht, hrs, hr, htk]
        | ok top =>
          obtain ⟨idx, sc⟩ := top
          have hlen := get_topk_predictions_length sort r _ idx sc htk
          have h1 : idx[1]? = none := List.getElem?_eq_none (by omega)
          cases h0 : idx[0]? with
          | none => simp [predict, ht, hrs, hr, htk, h0, h1]
          | some p1 => simp [predict, ht, hrs, hr, htk, h0, h1]

/-- C11 at `topk = 1` and router logits `[0.1, 0.9, 0.2, 0.05]`: the router
is run, top-K returns the single index `1`, and the read of `first[1]` is
out of range. -/
theorem predict_topk_lt_two_never_returns_witness :
    top1Dispatcher.config_.topk < 2 ∧
    get_topk_predictions stableSort ([1/10, 9/10, 2/10, 5/100] : List ℚ)
      top1Dispatcher.config_.topk = .ok ([1], [9/10]) ∧
    predict stableSort (scriptedBackend demoScript) top1Dispatcher (List.replicate 3072 0) =
      ⟨top1Dispatcher, ["router"], none, none, .error .undefined_behaviour⟩ ∧
    (∀ p, (predict stableSort (scriptedBackend demoScript) top1Dispatcher
      (List.replicate 3072 0)).result ≠ .ok p) ∧
    (predict stableSort (scriptedBackend demoScript) top1Dispatcher
      (List.replicate 3072 0)).logits_to_average = none := by
  have htk : get_topk_predictions stableSort ([1/10, 9/10, 2/10, 5/100] : List ℚ)
      top1Dispatcher.config_.topk = .ok ([1], [9/10]) := by
    simp [get_topk_predictions, stableSort, topk_loop, List.range, List.range.loop,
      List.insertionSort, List.orderedInsert, top1Dispatcher]
    norm_num [notAfter, topk_comp]
  refine ⟨by decide, htk, ?_,
    predict_topk_lt_two_never_returns stableSort (scriptedBackend demoScript) top1Dispatcher
      (List.replicate 3072 0) (by decide)⟩
  have ht : (scriptedBackend demoScript).CreateTensor (List.replicate 3072 0)
      (List.replicate 3072 (0 : ℚ)).length top1Dispatcher.input_node_dims_
        = .ok [1, 3, 32, 32] := scripted_CreateTensor_ok _ _
  have hr : (scriptedBackend demoScript).Run "router" [1, 3, 32, 32]
      = .ok [1/10, 9/10, 2/10, 5/100] := by
    simp [scriptedBackend, demoScript, List.lookup]
  have hrs : top1Dispatcher.router_session_ = some "router" := rfl
  unfold predict
  simp only [ht, hrs, hr, htk]
  rfl

/-- C12, as stated, fails: with `topk = 3` and router logits
`[0.1, 0.9, 0.2, 0.05]` the top-3 candidates are `1, 2, 0`; `predict` selects
and runs the expert `1_2`, whose class-ID sequence `[1, 2]` does not contain
the third candidate `0`. -/
theorem predict_selects_expert_missing_third_candidate :
    get_topk_predictions stableSort ([1/10, 9/10, 2/10, 5/100] : List ℚ)
      top3Dispatcher.config_.topk = .ok ([1, 2, 0], [9/10, 2/10, 1/10]) ∧
    select_expert top3Dispatcher.expert_class_map_ (Int.ofNat 1) (Int.ofNat 2) = "1_2" ∧
    (predict stableSort (scriptedBackend demoScript) top3Dispatcher
      (List.replicate 3072 0)).calls = ["router", "1_2"] ∧
    ("1_2", [1, 2]) ∈ top3Dispatcher.expert_class_map_ ∧
    (0 : Int) ∉ ([1, 2] : List Int) := by
  exact ⟨topk3_demo, by decide, predict_top3_calls, by decide, by decide⟩

/-- C12, amended: for every configuration and every router output, an
expert that `predict` selects and runs has a class-ID sequence containing the
router's two highest-ranked candidates `pred1` and `pred2`; further
candidates play no part in the selection. -/
theorem predict_selected_expert_covers_top_two {Session Tensor α : Type}
    [LinearOrderedField α] (sort : (Nat → Nat → Bool) → List Nat → List Nat)
    (B : Backend Session Tensor α) (self : MSNetInference Session) (input : List α)
    (router expert : Session)
    (hcalls : (predict sort B self input).calls = [router, expert]) :
    ∃ t r idx sc p1 p2 classes,
      B.CreateTensor input input.length self.input_node_dims_ = .ok t ∧
      B.Run router t = .ok r ∧
      get_topk_predictions sort r self.config_.topk = .ok (idx, sc) ∧
      idx[0]? = some p1 ∧ idx[1]? = some p2 ∧
      (select_expert self.expert_class_map_ (Int.ofNat p1) (Int.ofNat p2), classes)
        ∈ self.expert_class_map_ ∧
      Int.ofNat p1 ∈ classes ∧ Int.ofNat p2 ∈ classes ∧
      (map_index self.expert_sessions_
        (select_expert self.expert_class_map_ (Int.ofNat p1) (Int.ofNat p2))).2
          = some expert := by
  cases ht : B.CreateTensor input input.length self.input_node_dims_ with
  | error msg => simp [predict, ht] at hcalls
  | ok t =>
    cases hrs : self.router_session_ with
    | none => simp [predict, ht, hrs] at hcalls
    | some router1 =>
      cases hr : B.Run router1 t with
      | error msg => simp [predict, ht, hrs, hr] at hcalls
      | ok r =>
        cases htk : get_topk_predictions sort r self.config_.topk with
        | error e => simp [predict, ht, hrs, hr, htk] at hcalls
        | ok top =>
          obtain ⟨idx, sc⟩ := top
          cases h0 : idx[0]? with
          | none => simp [predict, ht, hrs, hr, htk, h0] at hcalls
          | some p1 =>
            cases h1 : idx[1]? with
            | none => simp [predict, ht, hrs, hr, htk, h0, h1] at hcalls
            | some p2 =>
              have hpred := predict_after_topk sort B self input t router1 r idx sc p1 p2
                ht hrs hr htk h0 h1
              by_cases hsel : select_expert self.expert_class_map_ (Int.ofNat p1)
                  (Int.ofNat p2) = ""
              · rw [hpred, if_neg (not_not.mpr hsel), (predict_step5_calls _ _ _).1] at hcalls
                simp at hcalls
              · obtain ⟨classes, hmem, hc1, hc2⟩ := select_expert_mem _ _ _ hsel
                rw [hpred, if_pos hsel] at hcalls
                cases hmi : (map_index self.expert_sessions_
                    (select_expert self.expert_class_map_ (Int.ofNat p1) (Int.ofNat p2))).2 with
                | none =>
                  simp only [hmi] at hcalls
                  exact absurd hcalls (by simp)
                | some expert1 =>
                  simp only [hmi] at hcalls
                  have hboth : [router1, expert1] = [router, expert] := by
                    cases hx : B.Run expert1 t with
                    | error msg =>
                      simp only [hx] at hcalls
                      exact hcalls
                    | ok x =>
                      simp only [hx, (predict_step5_calls _ _ _).1] at hcalls
                      exact hcalls
                  injection hboth with hr1 hrest
                  injection hrest with he1 _
                  subst hr1 he1
                  exact ⟨t, r, idx, sc, p1, p2, classes, rfl, hr, htk, h0, h1, hmem, hc1, hc2,
                    hmi⟩

/-- C12 amended, at `topk = 3` and router logits `[0.1, 0.9, 0.2, 0.05]`:
the expert `1_2` is run, and its class-ID sequence holds the two
highest-ranked candidates `1` and `2`. -/
theorem predict_selected_expert_covers_top_two_witness :
    (predict stableSort (scriptedBackend demoScript) top3Dispatcher
      (List.replicate 3072 0)).calls = ["router", "1_2"] ∧
    ∃ t r idx sc p1 p2 classes,
      (scriptedBackend demoScript).CreateTensor (List.replicate 3072 0)
        (List.replicate 3072 (0 : ℚ)).length top3Dispatcher.input_node_dims_ = .ok t ∧
      (scriptedBackend demoScript).Run "router" t = .ok r ∧
      get_topk_predictions stableSort r top3Dispatcher.config_.topk = .ok (idx, sc) ∧
      idx[0]? = some p1 ∧ idx[1]? = some p2 ∧
      (select_expert top3Dispatcher.expert_class_map_ (Int.ofNat p1) (Int.ofNat p2), classes)
        ∈ top3Dispatcher.expert_class_map_ ∧
      Int.ofNat p1 ∈ classes ∧ Int.ofNat p2 ∈ classes ∧
      (map_index top3Dispatcher.expert_sessions_
        (select_expert top3Dispatcher.expert_class_map_ (Int.ofNat p1) (Int.ofNat p2))).2
          = some "1_2" :=
  ⟨predict_top3_calls,
    predict_selected_expert_covers_top_two stableSort (scriptedBackend demoScript)
      top3Dispatcher (List.replicate 3072 0) "router" "1_2" predict_top3_calls⟩

/-- C13: the code at the failing input.  First half of the claim: with a
router that loads and no directory entry of extension `.onnx`, construction
raises `std::runtime_error` (so on the empty directory, and on one holding
only `readme.txt` and `.onnx`, a file name without extension).  Second half:
on a directory holding `99999999999.onnx` the expert is discovered and every
model loads, yet construction raises `std::out_of_range` instead of
succeeding; on `1_2.onnx`, `notes.txt`, `0_3.onnx` it succeeds. -/
theorem construct_fails_although_expert_loaded :
    (∀ (Session : Type) (load : String → Except String Session) (entries : List String)
      (config : Config) (router : Session),
      load config.router_model_path = .ok router →
      (∀ entry ∈ entries, path_extension entry.data ≠ ".onnx".data) →
      MSNetInference.construct load entries config = .error .runtime_error) ∧
    MSNetInference.construct scriptedLoad [] demoConfig = .error .runtime_error ∧
    MSNetInference.construct scriptedLoad ["experts/readme.txt", "experts/.onnx"] demoConfig
      = .error .runtime_error ∧
    path_extension "experts/99999999999.onnx".data = ".onnx".data ∧
    load_experts scriptedLoad ["experts/99999999999.onnx"] []
      = .ok [("99999999999", some "experts/99999999999.onnx")] ∧
    MSNetInference.construct scriptedLoad ["experts/99999999999.onnx"] demoConfig
      = .error .out_of_range ∧
    MSNetInference.construct scriptedLoad
      ["experts/1_2.onnx", "experts/notes.txt", "experts/0_3.onnx"] demoConfig
      = .ok builtDispatcher :=
  ⟨fun _ load entries config router hrouter hnone =>
      construct_no_experts load entries config router hrouter hnone,
    rfl, rfl, by decide, rfl, rfl, rfl⟩

/-- C14: for every logit vector `v`, `average_logits` applied to the
one-element sequence `[v]` returns `v` unchanged. -/
theorem average_logits_singleton {α : Type} [LinearOrderedField α] (v : List α) :
    average_logits [v] = .ok v :=
  average_logits_single v

/-- C15, as stated, fails on `float`: addition rounds, so the order of the
additions matters.  The sequence `[2^24], [1], [1], [-2^24]` averages to `0`
(each `2^24 + 1` rounds back to `2^24`), its permutation
`[2^24], [-2^24], [1], [1]` averages to `0.5`. -/
theorem average_logits_float_order_dependent :
    List.Perm
      [[Binary32.ofInt 16777216], [Binary32.ofInt 1], [Binary32.ofInt 1],
        [Binary32.ofInt (-16777216)]]
      [[Binary32.ofInt 16777216], [Binary32.ofInt (-16777216)], [Binary32.ofInt 1],
        [Binary32.ofInt 1]] ∧
    average_logits [[Binary32.ofInt 16777216], [Binary32.ofInt 1], [Binary32.ofInt 1],
      [Binary32.ofInt (-16777216)]] = .ok [⟨0, 0⟩] ∧
    average_logits [[Binary32.ofInt 16777216], [Binary32.ofInt (-16777216)],
      [Binary32.ofInt 1], [Binary32.ofInt 1]] = .ok [⟨1, -1⟩] ∧
    average_logits [[Binary32.ofInt 16777216], [Binary32.ofInt 1], [Binary32.ofInt 1],
      [Binary32.ofInt (-16777216)]] ≠
    average_logits [[Binary32.ofInt 16777216], [Binary32.ofInt (-16777216)],
      [Binary32.ofInt 1], [Binary32.ofInt 1]] := by
  refine ⟨?_, by decide, by decide, by decide⟩
  refine List.Perm.cons _ ?_
  exact @List.perm_append_comm _ [[Binary32.ofInt 1], [Binary32.ofInt 1]]
    [[Binary32.ofInt (-16777216)]]

/-- C15, amended: in an arithmetic whose addition is commutative with
`0 + x = x` (as that of `float` is, signed zeros and NaN apart),
`average_logits` returns the same vector for a pair of equal-length vectors
in either order; and when addition is also associative (exact arithmetic) it
returns the same vector for every permutation of every non-empty sequence of
equal-length vectors. -/
theorem average_logits_order_independent {α : Type} [Zero α] [Add α] [Div α] [NatCast α]
    (hzero : ∀ x : α, 0 + x = x) (hcomm : ∀ x y : α, x + y = y + x) :
    (∀ a b : List α, a.length = b.length → average_logits [a, b] = average_logits [b, a]) ∧
    ((∀ x y z : α, (x + y) + z = x + (y + z)) →
      ∀ (n : Nat) (l l1 : List (List α)), l ≠ [] → (∀ v ∈ l, v.length = n) → l.Perm l1 →
        average_logits l = average_logits l1) := by
  constructor
  · intro a b hab
    have h1 : accumulate (List.replicate a.length (0 : α)) a = .ok a := by
      rw [accumulate_eq _ _ (by simp), zipWith_zero_add hzero]
    have h2 : accumulate (List.replicate b.length (0 : α)) b = .ok b := by
      rw [accumulate_eq _ _ (by simp), zipWith_zero_add hzero]
    have h3 : accumulate a b = .ok (List.zipWith (· + ·) a b) := accumulate_eq _ _ (by omega)
    have h4 : accumulate b a = .ok (List.zipWith (· + ·) b a) := accumulate_eq _ _ (by omega)
    have h5 : List.zipWith (· + ·) a b = List.zipWith (· + ·) b a := by
      rw [List.zipWith_comm]
      congr 1
      funext x y
      exact hcomm y x
    simp only [average_logits, accumulate_all, h1, h2, h3, h4, h5, List.length_cons,
      List.length_nil]
  · intro hassoc n l l1 hne hall hperm
    have hne1 : l1 ≠ [] := by
      intro h
      rw [h] at hperm
      exact hne hperm.eq_nil
    have hall1 : ∀ v ∈ l1, v.length = n := fun v hv => hall v (hperm.mem_iff.mpr hv)
    rw [average_logits_foldl n l hne hall, average_logits_foldl n l1 hne1 hall1,
      hperm.length_eq,
      hperm.foldl_eq' (fun x _ y _ z => zipWith_add_right_comm hcomm hassoc z x y)]

/-- C15 amended, over the rationals, at the vectors `[1, 2]` and `[3, 4]`. -/
theorem average_logits_order_independent_witness :
    average_logits ([[1, 2], [3, 4]] : List (List ℚ)) = .ok [2, 3] ∧
    average_logits ([[3, 4], [1, 2]] : List (List ℚ)) = .ok [2, 3] ∧
    (∀ a b : List ℚ, a.length = b.length → average_logits [a, b] = average_logits [b, a]) ∧
    ((∀ x y z : ℚ, (x + y) + z = x + (y + z)) →
      ∀ (n : Nat) (l l1 : List (List ℚ)), l ≠ [] → (∀ v ∈ l, v.length = n) → l.Perm l1 →
        average_logits l = average_logits l1) :=
  ⟨by norm_num [average_logits, accumulate_all, accumulate],
    by norm_num [average_logits, accumulate_all, accumulate],
    average_logits_order_independent zero_add add_comm⟩

/-- C16: after a completed construction the keys of `expert_class_map_` are
the keys of `expert_sessions_`: the two key sequences coincide and hold no
key twice, so every expert key of the handle table has exactly one entry in
the class map and the class map has no other key. -/
theorem construct_class_map_keys_eq_session_keys {Session : Type}
    (load : String → Except String Session) (entries : List String) (config : Config)
    (self : MSNetInference Session)
    (h : MSNetInference.construct load entries config = .ok self) :
    self.expert_class_map_.map Prod.fst = self.expert_sessions_.map Prod.fst ∧
    (self.expert_class_map_.map Prod.fst).Nodup ∧
    (∀ key, key ∈ self.expert_sessions_.map Prod.fst →
      ∃ classes, (key, classes) ∈ self.expert_class_map_) := by
  obtain ⟨_, _, _, hsorted, hparse, _⟩ := construct_inv load entries config self h
  have hm := (parse_expert_class_map_loop_inv self.expert_sessions_ [] _ hparse
    (by simp [KeysSorted]) (by intro k c hk; exact absurd hk (List.not_mem_nil _))).1
  have hkeys := parse_expert_class_map_loop_keys self.expert_sessions_ [] _ hparse
  have heq : self.expert_class_map_.map Prod.fst = self.expert_sessions_.map Prod.fst := by
    apply sorted_keys_eq
    · rw [List.pairwise_map]; exact hm
    · rw [List.pairwise_map]; exact hsorted
    · intro k
      rw [hkeys k]
      simp
  refine ⟨heq, keysSorted_nodup _ hm, ?_⟩
  intro key hkey
  rw [← heq] at hkey
  obtain ⟨entry, hentry, hk⟩ := List.mem_map.mp hkey
  exact ⟨entry.2, by rw [← hk]; exact hentry⟩

/-- C16 on a directory holding `1_2.onnx`, `notes.txt` and `0_3.onnx`. -/
theorem construct_class_map_keys_eq_session_keys_witness :
    MSNetInference.construct scriptedLoad
      ["experts/1_2.onnx", "experts/notes.txt", "experts/0_3.onnx"] demoConfig
      = .ok builtDispatcher ∧
    builtDispatcher.expert_class_map_.map Prod.fst = ["0_3", "1_2"] ∧
    builtDispatcher.expert_class_map_.map Prod.fst
      = builtDispatcher.expert_sessions_.map Prod.fst ∧
    (builtDispatcher.expert_class_map_.map Prod.fst).Nodup ∧
    (∀ key, key ∈ builtDispatcher.expert_sessions_.map Prod.fst →
      ∃ classes, (key, classes) ∈ builtDispatcher.expert_class_map_) :=
  ⟨construct_demo, rfl,
    construct_class_map_keys_eq_session_keys scriptedLoad
      ["experts/1_2.onnx", "experts/notes.txt", "experts/0_3.onnx"] demoConfig builtDispatcher
      construct_demo⟩

/-- C17: for every object produced by a completed construction and every
input, the object after a `predict` call is the object before it: the
configuration, the expert class map and the expert-handle table are the
same; in particular `expert_sessions_[selected_expert_key]` finds its key and
inserts nothing. -/
theorem predict_leaves_dispatcher_unchanged {Session Tensor α : Type} [LinearOrderedField α]
    (load : String → Except String Session) (entries : List String) (config : Config)
    (self : MSNetInference Session)
    (h : MSNetInference.construct load entries config = .ok self)
    (sort : (Nat → Nat → Bool) → List Nat → List Nat) (B : Backend Session Tensor α)
    (input : List α) :
    (predict sort B self input).self = self := by
  obtain ⟨_, _, _, hsorted, hparse, _⟩ := construct_inv load entries config self h
  have hkeys := parse_expert_class_map_loop_keys self.expert_sessions_ [] _ hparse
  cases ht : B.CreateTensor input input.length self.input_node_dims_ with
  | error msg => simp [predict, ht]
  | ok t =>
    cases hrs : self.router_session_ with
    | none => simp [predict, ht, hrs]
    | some router =>
      cases hr : B.Run router t with
      | error msg => simp [predict, ht, hrs, hr]
      | ok r =>
        cases htk : get_topk_predictions sort r self.config_.topk with
        | error e => simp [predict, ht, hrs, hr, htk]
        | ok top =>
          obtain ⟨idx, sc⟩ := top
          cases h0 : idx[0]? with
          | none => simp [predict, ht, hrs, hr, htk, h0]
          | some p1 =>
            cases h1 : idx[1]? with
            | none => simp [predict, ht, hrs, hr, htk, h0, h1]
            | some p2 =>
              rw [predict_after_topk sort B self input t router r idx sc p1 p2
                ht hrs hr htk h0 h1]
              by_cases hsel : select_expert self.expert_class_map_ (Int.ofNat p1)
                  (Int.ofNat p2) = ""
              · rw [if_neg (not_not.mpr hsel)]
                exact (predict_step5_calls _ _ _).2.1
              · rw [if_pos hsel]
                obtain ⟨classes, hmem, _, _⟩ := select_expert_mem _ _ _ hsel
                have hk : select_expert self.expert_class_map_ (Int.ofNat p1) (Int.ofNat p2)
                    ∈ self.expert_sessions_.map Prod.fst := by
                  have := (hkeys _).mp (List.mem_map.mpr ⟨_, hmem, rfl⟩)
                  simpa using this
                rw [map_index_of_mem _ _ hk]
                cases (map_index self.expert_sessions_
                    (select_expert self.expert_class_map_ (Int.ofNat p1) (Int.ofNat p2))).2 with
                | none => rfl
                | some expert =>
                  simp only
                  cases B.Run expert t with
                  | error msg => rfl
                  | ok x => exact (predict_step5_calls _ _ _).2.1

/-- C17 on the object built from `1_2.onnx`, `notes.txt` and `0_3.onnx`, for
a call that selects and runs the expert `1_2`. -/
theorem predict_leaves_dispatcher_unchanged_witness :
    MSNetInference.construct scriptedLoad
      ["experts/1_2.onnx", "experts/notes.txt", "experts/0_3.onnx"] demoConfig
      = .ok builtDispatcher ∧
    (predict stableSort (scriptedBackend builtScript) builtDispatcher
      (List.replicate 3072 0)).calls = ["router.onnx", "experts/1_2.onnx"] ∧
    (predict stableSort (scriptedBackend builtScript) builtDispatcher
      (List.replicate 3072 0)).self = builtDispatcher :=
  ⟨construct_demo, predict_built_calls,
    predict_leaves_dispatcher_unchanged scriptedLoad
      ["experts/1_2.onnx", "experts/notes.txt", "experts/0_3.onnx"] demoConfig builtDispatcher
      construct_demo stableSort (scriptedBackend builtScript) (List.replicate 3072 0)⟩

/-- C18: the code at the failing input.  The empty sequence is guarded
(`average_logits` returns the empty vector), but a sequence whose second
vector is shorter than the first is not: `logits[i]` is read past the end of
the shorter vector.  Through `predict` this happens as soon as the selected
expert returns fewer logits than the router. -/
theorem average_logits_reads_past_shorter_vector :
    average_logits ([] : List (List ℚ)) = .ok [] ∧
    average_logits ([[1, 2], [3]] : List (List ℚ)) = .error .undefined_behaviour ∧
    predict stableSort (scriptedBackend shortExpertScript) demoDispatcher
        (List.replicate 3072 0) =
      ⟨demoDispatcher, ["router", "1_2"],
        some [[1/10, 9/10, 2/10, 5/100], [7/10, 3/10]], none,
        .error .undefined_behaviour⟩ := by
  refine ⟨rfl, ?_, ?_⟩
  · simp [average_logits, accumulate_all, accumulate]
  · rw [predict_expert_eq stableSort (scriptedBackend shortExpertScript) demoDispatcher
      (List.replicate 3072 0) [1, 3, 32, 32] "router" "1_2" [1/10, 9/10, 2/10, 5/100]
      [7/10, 3/10] [1, 2] [9/10, 2/10] 1 2 "1_2"
      (scripted_CreateTensor_ok _ _) rfl
      (by simp [scriptedBackend, shortExpertScript, List.lookup])
      topk_demo rfl rfl (by decide) (by decide) (by decide)
      (by simp [scriptedBackend, shortExpertScript, List.lookup])]
    simp [predict_step5, average_logits, accumulate_all, accumulate]

/-- C19: on every expert class map built by `parse_expert_class_map` the
entry of the empty key, if there is one, has an empty class-ID sequence; so
an expert whose class-ID sequence contains both `pred1` and `pred2` has a
non-empty key, the selection loop returns a non-empty key exactly when some
expert covers both, and `predict` fuses the router output alone exactly when
no expert covers both. -/
theorem empty_key_sentinel_never_collides {Session : Type}
    (sessions : List (String × Option Session)) (m : List (String × List Int))
    (hm : parse_expert_class_map_loop sessions [] = .ok m) :
    (∀ classes, ("", classes) ∈ m → classes = []) ∧
    (∀ key classes (pred1 pred2 : Int), (key, classes) ∈ m → pred1 ∈ classes →
      pred2 ∈ classes → key ≠ "") ∧
    (∀ pred1 pred2 : Int, select_expert m pred1 pred2 ≠ "" ↔
      ∃ key classes, (key, classes) ∈ m ∧ pred1 ∈ classes ∧ pred2 ∈ classes) ∧
    (∀ (Tensor α : Type) [LinearOrderedField α]
      (sort : (Nat → Nat → Bool) → List Nat → List Nat) (B : Backend Session Tensor α)
      (self : MSNetInference Session) (input : List α) (t : Tensor) (router : Session)
      (r : List α) (idx : List Nat) (sc : List α) (p1 p2 : Nat),
      self.expert_class_map_ = m →
      B.CreateTensor input input.length self.input_node_dims_ = .ok t →
      self.router_session_ = some router →
      B.Run router t = .ok r →
      get_topk_predictions sort r self.config_.topk = .ok (idx, sc) →
      idx[0]? = some p1 → idx[1]? = some p2 →
      ((predict sort B self input).logits_to_average ≠ some [r] ↔
        ∃ key classes, (key, classes) ∈ m ∧ Int.ofNat p1 ∈ classes ∧
          Int.ofNat p2 ∈ classes)) := by
  have hempty := empty_key_classes sessions m hm
  have hsorted : KeysSorted m :=
    (parse_expert_class_map_loop_inv sessions [] m hm (by simp [KeysSorted])
      (by intro k c h; exact absurd h (List.not_mem_nil _))).1
  have hkey : ∀ key classes (pred1 pred2 : Int), (key, classes) ∈ m → pred1 ∈ classes →
      pred2 ∈ classes → key ≠ "" := by
    intro key classes pred1 pred2 hmem h1 _ hk
    subst hk
    rw [hempty classes hmem] at h1
    exact absurd h1 (List.not_mem_nil _)
  have hiff : ∀ pred1 pred2 : Int, select_expert m pred1 pred2 ≠ "" ↔
      ∃ key classes, (key, classes) ∈ m ∧ pred1 ∈ classes ∧ pred2 ∈ classes := by
    intro pred1 pred2
    constructor
    · intro h
      obtain ⟨classes, hmem, h1, h2⟩ := select_expert_mem m pred1 pred2 h
      exact ⟨_, classes, hmem, h1, h2⟩
    · rintro ⟨key, classes, hmem, h1, h2⟩ hsel
      obtain ⟨c0, hc0, hp1, hp2, _⟩ :=
        select_expert_first hsorted pred1 pred2 key classes hmem h1 h2
      exact hkey _ c0 pred1 pred2 hc0 hp1 hp2 hsel
  refine ⟨hempty, hkey, hiff, ?_⟩
  intro Tensor α _ sort B self input t router r idx sc p1 p2 hmap ht hrs hr htopk hp1 hp2
  rw [← hiff, ← hmap, ne_eq, ne_eq,
    predict_router_only_iff sort B self input t router r idx sc p1 p2 ht hrs hr htopk hp1 hp2]

/-- C19 on a handle table with the empty key and the key `1_2`: the empty key
gets the empty class-ID sequence and is never selected. -/
theorem empty_key_sentinel_never_collides_witness :
    parse_expert_class_map_loop [("", some ""), ("1_2", some "1_2")] []
      = .ok [("", []), ("1_2", [1, 2])] ∧
    select_expert [("", []), ("1_2", [1, 2])] 1 2 = "1_2" ∧
    (∀ classes, ("", classes) ∈ [("", ([] : List Int)), ("1_2", [1, 2])] → classes = []) ∧
    (∀ key classes (pred1 pred2 : Int),
      (key, classes) ∈ [("", ([] : List Int)), ("1_2", [1, 2])] → pred1 ∈ classes →
      pred2 ∈ classes → key ≠ "") ∧
    (∀ pred1 pred2 : Int, select_expert [("", []), ("1_2", [1, 2])] pred1 pred2 ≠ "" ↔
      ∃ key classes, (key, classes) ∈ [("", ([] : List Int)), ("1_2", [1, 2])] ∧
        pred1 ∈ classes ∧ pred2 ∈ classes) ∧
    (∀ (Tensor α : Type) [LinearOrderedField α]
      (sort : (Nat → Nat → Bool) → List Nat → List Nat) (B : Backend String Tensor α)
      (self : MSNetInference String) (input : List α) (t : Tensor) (router : String)
      (r : List α) (idx : List Nat) (sc : List α) (p1 p2 : Nat),
      self.expert_class_map_ = [("", []), ("1_2", [1, 2])] →
      B.CreateTensor input input.length self.input_node_dims_ = .ok t →
      self.router_session_ = some router →
      B.Run router t = .ok r →
      get_topk_predictions sort r self.config_.topk = .ok (idx, sc) →
      idx[0]? = some p1 → idx[1]? = some p2 →
      ((predict sort B self input).logits_to_average ≠ some [r] ↔
        ∃ key classes, (key, classes) ∈ [("", ([] : List Int)), ("1_2", [1, 2])] ∧
          Int.ofNat p1 ∈ classes ∧ Int.ofNat p2 ∈ classes)) :=
  ⟨by decide, by decide,
    empty_key_sentinel_never_collides [("", some ""), ("1_2", some "1_2")]
      [("", []), ("1_2", [1, 2])] (by decide)⟩

/-- C20: there is an expert key with a segment that is not an integer as a
whole and is nevertheless not skipped: in the key `5_23abc` the segment
`23abc` is read by `std::stoi` as `23`, the stored class-ID sequence is
`[5, 23]`, and the expert is selected for the pair `(5, 23)`. -/
theorem parse_expert_class_map_keeps_leading_integer :
    valid_integer "23abc".data = none ∧
    stoi "23abc".data = .ok 23 ∧
    parse_key "5_23abc" = .ok [5, 23] ∧
    parse_expert_class_map_loop [("5_23abc", some "5_23abc")] [] = .ok [("5_23abc", [5, 23])] ∧
    select_expert [("5_23abc", [5, 23])] 5 23 = "5_23abc" := by
  decide

end MSNet
